import Mathlib

/-!
Verification of the `gl-gpgpu` planning and macro-generation core against its
specification.

The development shallowly embeds the repository's code:

* `macros.js` — the `GLSL` preprocessor-macro string builders (`macroValues`,
  `macroOutput`, `macroSamples`, `macroTaps`, `macroPass`) together with their
  module-level string cache, embedded here as pure string functions plus an
  explicitly threaded association-list cache.
* `state.js` — the channel-allocation and texture/pass-creation flow of
  `getState` (`passChannels`, `mergeChannels`, `addTexture`, `addPass`),
  embedded as a pure fold that records every created texture attachment with
  its channel count, creation step, pass and texture index.  The opaque GL
  calls (`api.texture`, `api.framebuffer`) create handles only, modelled as
  creation-order ids; width/height/filter metadata is irrelevant to the
  claims and omitted.
* `step.js` — the step runner `getStep`'s returned `run` function, embedded as
  a state transformer that also returns the trace of draw-pass commands it
  issues.  The optional `onStep`/`onPass`/`merge.update` hooks are arbitrary
  caller JS functions and are not modelled.
* `const.js` — the default limits.
* The packing/grouping/sampling planner lives in the repository's `maps.js`,
  which is not among the sources available here (only its callers and
  documentation are); those parts are modelled from the spec and are marked
  `Modelled from the spec:` in their doc comments.

JS-value conventions: JS numbers that are always integers here are `Nat`
(or `Int` where the code can go negative), `undefined`-able values are
`Option`, and the `macros` hook option is reduced to the three decidable
cases the code distinguishes for a non-function, non-string value
(absent / truthy / falsy).
-/

/-! ## Defaults, from `const.js` -/

/-- Prefix namespace to avoid naming clashes (`const.js`). -/
def preDef : String := "gpgpu_"

/-- Default minimum allowable channels for framebuffer attachments (`const.js`). -/
def channelsMinDef : Nat := 4

/-- Default maximum allowable channels for framebuffer attachments (`const.js`). -/
def channelsMaxDef : Nat := 4

/-- Default maximum textures bound per pass (`const.js`). -/
def buffersMaxDef : Nat := 1

/-- Default how many steps are bound as outputs, unavailable as input (`const.js`). -/
def boundDef : Nat := 1

/-- Default number of steps of state to track (`const.js`). -/
def stepsDef : Nat := 2

/-- Whether states merge into one texture by default (`const.js`). -/
def mergeDef : Bool := true

/-! ## String helpers shared by the macro builders (`macros.js`) -/

/-- Escaped carriage-return for easier reading (`macros.js` `cr`). -/
def cr : String := " \\\n"

/-- The channels denoted for texture input/output (`macros.js` `rgba`). -/
def rgba : String := "rgba"

/-- JS `String.prototype.slice(a, b)` for the in-range uses the code makes:
characters from position `a` up to (excluding) `b`, clamped to the string. -/
def strSlice (s : String) (a b : Nat) : String := ⟨(s.data.take b).drop a⟩

/-- Join a list of strings with a separator (JS `Array.prototype.join`). -/
def joinSep (sep : String) : List String → String
  | [] => ""
  | h :: t => t.foldl (fun a x => a ++ sep ++ x) h

/-- JS template interpolation of a possibly-`undefined` number. -/
def optNatStr : Option Nat → String
  | none => "undefined"
  | some n => toString n

/-- `JSON.stringify` of a list, given the element encoding. -/
def jsonList {α : Type} (f : α → String) (l : List α) : String :=
  "[" ++ joinSep "," (l.map f) ++ "]"

/-- `JSON.stringify` of a flat number list. -/
def jsonL1 : List Nat → String := jsonList toString

/-- `JSON.stringify` of a nested number list. -/
def jsonL2 : List (List Nat) → String := jsonList jsonL1

/-- `JSON.stringify` of a `[step, texture]` pair. -/
def jsonPair (p : Nat × Nat) : String :=
  "[" ++ toString p.1 ++ "," ++ toString p.2 ++ "]"

/-- `JSON.stringify` of a pass's sample list. -/
def jsonPairs : List (Nat × Nat) → String := jsonList jsonPair

/-- `JSON.stringify` of one value's reads row; a sparse hole prints `null`. -/
def jsonReadsRow : Option (List Nat) → String
  | none => "null"
  | some l => jsonL1 l

/-- `JSON.stringify` of a pass's reads rows. -/
def jsonReads : List (Option (List Nat)) → String := jsonList jsonReadsRow

/-- `JSON.stringify` of a possibly-`undefined` value (`id` in `macros.js`). -/
def jsonOpt {α : Type} (f : α → String) : Option α → String
  | none => "undefined"
  | some x => f x

/-! ## `GLSL` list declarations (`macros.js` `getGLSLList` family)

The JS renders each element as `init(v.join?.(', ') ?? v)`; here each element
arrives already rendered to the text between the parentheses. -/

/-- JS `(qualify && qualify+' ')`. -/
def qualSp (q : String) : String := if q = "" then "" else q ++ " "

/-- Array-like `GLSL` declaration common to all versions (`getGLSLListBase`). -/
def glslListBase (type name : String) (a : List String) (qualify init : String) :
    String :=
  "const int " ++ name ++ "_l = " ++ toString a.length ++ ";" ++
  (a.foldl
    (fun (si : String × Nat) v =>
      (si.1 ++ cr ++ qualSp qualify ++ type ++ " " ++ name ++ "_" ++
          toString si.2 ++ " = " ++ init ++ "(" ++ v ++ ");",
        si.2 + 1))
    ("", 0)).1

/-- Array-like `GLSL1` declaration with a ternary lookup (`getGLSL1ListLike`). -/
def glsl1ListLike (type name : String) (a : List String) (qualify init : String) :
    String :=
  glslListBase type name a qualify init ++ "\n" ++
  "// Index macro `" ++ name ++ "_i` (e.g: `" ++ name ++
    "_i(0)`) may be slow, use name (e.g: `" ++ name ++ "_0`) if possible.\n" ++
  "#define " ++ name ++ "_i(i) " ++
  (a.foldl
    (fun (si : String × Nat) _ =>
      ((if si.2 = 0 then name ++ "_" ++ toString si.2
        else "((i == " ++ toString si.2 ++ ")? " ++ name ++ "_" ++
          toString si.2 ++ " : " ++ si.1 ++ ")"),
        si.2 + 1))
    ("", 0)).1 ++ "\n"

/-- Array `GLSL1` declaration with element assignments (`getGLSL1ListArray`). -/
def glsl1ListArray (type name : String) (a : List String) (qualify init : String) :
    String :=
  glslListBase type name a qualify init ++ cr ++
  qualSp qualify ++ type ++ " " ++ name ++ "[" ++ name ++ "_l];" ++
  (a.foldl
    (fun (si : String × Nat) _ =>
      (si.1 ++ cr ++ name ++ "[" ++ toString si.2 ++ "] = " ++ name ++ "_" ++
          toString si.2 ++ ";",
        si.2 + 1))
    ("", 0)).1 ++ "\n" ++
  "#define " ++ name ++ "_i(i) " ++ name ++ "[i]\n"

/-- Array `GLSL3` declaration (`getGLSL3List`). -/
def glsl3List (type name : String) (a : List String) (qualify init : String) :
    String :=
  glslListBase type name a qualify init ++ cr ++
  qualSp qualify ++ type ++ " " ++ name ++ "[" ++ name ++ "_l] = " ++ init ++
    "[" ++ name ++ "_l](" ++
  (a.foldl
    (fun (si : String × Nat) _ =>
      ((if si.1 = "" then si.1 else si.1 ++ ", ") ++ name ++ "_" ++
          toString si.2,
        si.2 + 1))
    ("", 0)).1 ++ ");\n" ++
  "#define " ++ name ++ "_i(i) " ++ name ++ "[i]\n"

/-- Version dispatch (`getGLSLList`). -/
def getGLSLList (type name : String) (a : List String) (qualify : String)
    (glsl : Nat) (init : String := type) : String :=
  if 3 ≤ glsl then glsl3List type name a qualify init
  else if qualify.trim = "const" then glsl1ListLike type name a qualify init
  else glsl1ListArray type name a qualify init

/-! ## The maps and macro state (`mapGroups`/`mapSamples` output shape) -/

/-- The groupings a state's `maps` carries, as the macro generators and
`getState` consume them: value widths, values per texture, textures per pass,
the channel floor, and any per-pass sample/read lists. -/
structure Maps where
  values : List Nat
  textures : List (List Nat)
  passes : List (List Nat)
  channelsMin : Nat := channelsMinDef
  samples : Option (List (List (Nat × Nat))) := none
  reads : Option (List (List (Option (List Nat)))) := none
deriving DecidableEq

/-- The slice of a `gpgpu` state the macro generators read.  `macros` is the
hook option reduced to its non-function, non-string cases (`none`/`some true`
mean handle macros here, `some false` means emit nothing); `steps` is the JS
`steps.length ?? steps`; `passNow` defaults to the first pass as in
`macroSamples`/`macroTaps` (in `macroOutput` the JS requires it present). -/
structure MacroState where
  macros : Option Bool := none
  pre : String := preDef
  steps : Nat := stepsDef
  bound : Nat := boundDef
  count : Option Nat := none
  passNow : Nat := 0
  glsl : Nat := 1
  merge : Bool := mergeDef
  maps : Maps
deriving DecidableEq

/-- `hasMacros` over the reduced `macros` option: `null` (here `none`) means
the macros are to be handled here; a string result is used instead. -/
def hasMacrosRes (s : MacroState) : Option String :=
  match s.macros with
  | none => none
  | some true => none
  | some false => some ""

/-- The active pass's sample list, `maps.samples?.[passNow]`. -/
def passSamplesOf (s : MacroState) : Option (List (Nat × Nat)) :=
  s.maps.samples.bind (fun l => l.get? s.passNow)

/-- The active pass's reads rows, `maps.reads?.[passNow]`. -/
def passReadsOf (s : MacroState) : Option (List (Option (List Nat))) :=
  s.maps.reads.bind (fun l => l.get? s.passNow)

/-! ## `macroValues` (`macros.js`) -/

/-- The width (channel count) of one value, `values[v]`. -/
def widthOf (values : List Nat) (v : Nat) : Nat := values.getD v 0

/-- Sum of the widths of a texture's values. -/
def widthSum (values : List Nat) (tex : List Nat) : Nat :=
  (tex.map (widthOf values)).sum

/-- One value's `texture_v` line in `macroValues`. -/
def texLine (n : String) (t v : Nat) : String :=
  "#define " ++ n ++ "texture_" ++ toString v ++ " " ++ toString t ++ "\n"

/-- One value's `channels_v` line in `macroValues`. -/
def chanLine (n : String) (v : Nat) (chan : String) : String :=
  "#define " ++ n ++ "channels_" ++ toString v ++ " " ++ chan ++ "\n\n"

/-- The body of the inner `reduce` of `macroValues`: append one value's lines,
advancing the channel offset accumulator `i` by the value's width. -/
def texStepF (n : String) (values : List Nat) (t : Nat) (si : String × Nat)
    (v : Nat) : String × Nat :=
  (si.1 ++ texLine n t v ++
      chanLine n v (strSlice rgba si.2 (si.2 + widthOf values v)),
    si.2 + widthOf values v)

/-- The inner `reduce` of `macroValues` over one texture's values: the channel
offset accumulator `i` restarts at `0` for each texture and advances by each
value's width, slicing that value's channels out of `rgba`. -/
def texChunk (n : String) (values : List Nat) (t : Nat) (tex : List Nat)
    (s0 : String) : String :=
  (tex.foldl (texStepF n values t) (s0, 0)).1

/-- The outer `reduce` of `macroValues` over the textures. -/
def valuesBody (n : String) (values : List Nat) (textures : List (List Nat)) :
    String :=
  (textures.foldl
    (fun (st : String × Nat) tex => (texChunk n values st.2 tex st.1, st.2 + 1))
    ("", 0)).1

/-- The `stepsPast` count the macros derive, `macros.js` line
`#define ${n}stepsPast ${stepsL-bound}` (JS subtraction may go negative). -/
def stepsPastOf (s : MacroState) : Int := (s.steps : Int) - (s.bound : Int)

/-- Whether the `count` line is emitted: JS `(count)?` truthiness. -/
def countShown (c : Option Nat) : Bool :=
  match c with
  | none => false
  | some n => n ≠ 0

/-- The full `macroValues` string body. -/
def macroValuesStr (s : MacroState) : String :=
  valuesBody s.pre s.maps.values s.maps.textures ++
  (if countShown s.count then
    "#define count " ++ toString (s.count.getD 0) ++ "\n" else "") ++
  "#define " ++ s.pre ++ "textures " ++ toString s.maps.textures.length ++ "\n" ++
  "#define " ++ s.pre ++ "passes " ++ toString s.maps.passes.length ++ "\n" ++
  ("#define " ++ s.pre ++ "stepsPast " ++ toString (stepsPastOf s) ++ "\n") ++
  "#define " ++ s.pre ++ "steps " ++ toString s.steps ++ "\n" ++
  "#define " ++ s.pre ++ "bound " ++ toString s.bound ++ "\n\n"

/-- The `macroValues` cache key. -/
def keyValues (s : MacroState) : String :=
  "values:" ++ s.pre ++ "," ++ toString s.bound ++ "," ++
  jsonL1 s.maps.values ++ "," ++ jsonL2 s.maps.textures ++ "," ++
  toString s.steps ++ "," ++ toString s.maps.passes.length ++ "," ++
  optNatStr s.count

/-! ## `macroOutput` (`macros.js`) -/

/-- One value's output lines in `macroOutput`. -/
def outLine (n : String) (t bnd v : Nat) (chan : String) : String :=
  "\n" ++
  "#define " ++ n ++ "bound_" ++ toString v ++ " " ++ toString t ++ "\n" ++
  "#define " ++ n ++ "attach_" ++ toString v ++ " " ++ toString bnd ++ "\n" ++
  "#define " ++ n ++ "output_" ++ toString v ++ " gl_FragData[" ++ n ++
    "attach_" ++ toString v ++ "]." ++ chan ++ "\n"

/-- The body of the inner `reduce` of `macroOutput`. -/
def outStepF (n : String) (values : List Nat) (t bnd : Nat) (si : String × Nat)
    (v : Nat) : String × Nat :=
  (si.1 ++ outLine n t bnd v (strSlice rgba si.2 (si.2 + widthOf values v)),
    si.2 + widthOf values v)

/-- The inner `reduce` of `macroOutput` over one bound texture's values; the
channel offset accumulator again restarts at `0` for each texture. -/
def outChunk (n : String) (values : List Nat) (t bnd : Nat) (tex : List Nat)
    (s0 : String) : String :=
  (tex.foldl (outStepF n values t bnd) (s0, 0)).1

/-- The outer `reduce` of `macroOutput` over the active pass's textures. -/
def outputBody (n : String) (values : List Nat) (textures : List (List Nat))
    (pass : List Nat) : String :=
  (pass.foldl
    (fun (st : String × Nat) t =>
      (outChunk n values t st.2 (textures.getD t []) st.1, st.2 + 1))
    ("", 0)).1

/-- The full `macroOutput` string body. -/
def macroOutputStr (s : MacroState) : String :=
  "#define " ++ s.pre ++ "passNow " ++ toString s.passNow ++ "\n" ++
  outputBody s.pre s.maps.values s.maps.textures
    (s.maps.passes.getD s.passNow []) ++ "\n"

/-- The `macroOutput` cache key. -/
def keyOutput (s : MacroState) : String :=
  "output:" ++ s.pre ++ "," ++ toString s.passNow ++ "," ++
  jsonL1 s.maps.values ++ "," ++ jsonL2 s.maps.textures ++ "," ++
  jsonL2 s.maps.passes

/-! ## `macroSamples` (`macros.js`) -/

/-- JS `[step, texture].join(', ')` rendering of one sample. -/
def pairItems (p : Nat × Nat) : String := toString p.1 ++ ", " ++ toString p.2

/-- The full `macroSamples` string body: the `useSamples` list when the pass
has samples, then one `useReads_v` list per value that has reads (sparse rows
of the per-value reads array yield no output). -/
def macroSamplesStr (s : MacroState) : String :=
  (match passSamplesOf s with
   | none => ""
   | some ps =>
     "#define " ++ s.pre ++ "useSamples" ++ cr ++
     getGLSLList "ivec2" (s.pre ++ "samples") (ps.map pairItems) "const"
       s.glsl ++ "\n") ++
  (match passReadsOf s with
   | none => ""
   | some rows =>
     (rows.foldl
       (fun (si : String × Nat) row =>
         ((match row with
           | none => si.1
           | some reads =>
             si.1 ++ "#define " ++ s.pre ++ "useReads_" ++ toString si.2 ++
             cr ++
             getGLSLList "int" (s.pre ++ "reads_" ++ toString si.2)
               (reads.map toString) "const" s.glsl ++ "\n"),
           si.2 + 1))
       ("", 0)).1)

/-- The `macroSamples` cache key. -/
def keySamples (s : MacroState) : String :=
  "samples:" ++ s.pre ++ "," ++ toString s.passNow ++ "," ++
  jsonOpt jsonPairs (passSamplesOf s) ++ "," ++
  jsonOpt jsonReads (passReadsOf s) ++ "," ++ toString s.glsl

/-! ## `macroTaps` (`macros.js`) -/

/-- The full `macroTaps` string body: data taps for un-merged textures by
constant index, or for the merged texture by 2D (or, on `GLSL3`, 3D) lookup. -/
def macroTapsStr (s : MacroState) : String :=
  let n := s.pre
  let ps := passSamplesOf s
  let index := !s.merge
  let glsl3 := 3 ≤ s.glsl
  let texture := "texture" ++ (if glsl3 then "" else "2D")
  let f := n ++ "tapState"
  let tap := "#define " ++ f
  let byArgs := "stepBy, textureBy"
  let aka := "#define " ++ f ++ "(uv)" ++ cr ++ f
  let akaBy := "#define " ++ f ++ "By(uv, " ++ byArgs ++ ")" ++ cr ++ f
  let st := n ++ "samples_"
  let t := "_" ++ n
  let tapsL := (ps.map List.length).getD 0
  (if index then "" else "#define " ++ n ++ "mergedStates\n\n") ++
  (if tapsL = 0 then "" else
    ((if index then
      "// States in a `sampler2D[]`; looks up 1D index and 2D `uv`; " ++ cr ++
        "past steps go later in the list.\n" ++
      "// Pass constant array index values; `textures`.\n" ++
      "// Use `" ++ n ++ "data` list; ignore temporary `" ++ t ++ "` names.\n" ++
      tap ++ "s(uv, states, textures)" ++ cr ++
        "const int " ++ t ++ "tlI = int(textures);" ++ cr ++
        "vec2 " ++ t ++ "uvI = vec2(uv);" ++ cr ++
        getGLSLList "vec4" (n ++ "data")
          ((List.range tapsL).map (fun i => texture ++
            "(states[(int(" ++ st ++ toString i ++ ".s)*" ++ t ++
            "tlI)+int(" ++ st ++ toString i ++ ".t)], " ++ t ++ "uvI)"))
          "" s.glsl ++ "\n" ++
      "// States may also be sampled by shifted step/texture.\n" ++
      "// Pass constant array index values; `textures, " ++ byArgs ++ "`.\n" ++
      "// Use `" ++ n ++ "data` list; ignore temporary `" ++ t ++ "` names.\n" ++
      tap ++ "sBy(uv, states, textures, " ++ byArgs ++ ")" ++ cr ++
        "const int " ++ t ++ "tlIB = int(textures);" ++ cr ++
        "ivec2 " ++ t ++ "byIB = ivec2(" ++ byArgs ++ ");" ++ cr ++
        "vec2 " ++ t ++ "uvIB = vec2(uv);" ++ cr ++
        getGLSLList "vec4" (n ++ "data")
          ((List.range tapsL).map (fun i => texture ++
            "(states[" ++ "((int(" ++ st ++ toString i ++ ".s)+" ++ t ++
            "byIB.s)*" ++ t ++ "tlIB)+" ++ "int(" ++ st ++ toString i ++
            ".t)+" ++ t ++ "byIB.t" ++ "], " ++ t ++ "uvIB)"))
          "" s.glsl ++ "\n" ++
      "// Preferred aliases: index suits states array constant access.\n" ++
      aka ++ "s(uv, " ++ n ++ "states, " ++ n ++ "textures)\n" ++
      akaBy ++ "sBy(uv, " ++ n ++ "states, " ++ n ++ "textures, " ++ byArgs ++
        ")\n"
    else
      "// States merged to a `sampler2D`, scales 2D `uv` over " ++
        "`[textures, steps]`.\n" ++
      "// Step from now into the past going upwards in the texture.\n" ++
      "// Use `" ++ n ++ "data` list; ignore temporary `" ++ t ++ "` names.\n" ++
      tap ++ "2(uv, states, stepNow, steps, textures)" ++ cr ++
        "vec2 " ++ t ++ "l2 = vec2(textures, steps);" ++ cr ++
        "vec2 " ++ t ++ "uv2 = vec2(uv)/" ++ t ++ "l2;" ++ cr ++
        "vec2 " ++ t ++ "s2 = vec2(1, -1)/" ++ t ++ "l2;" ++ cr ++
        "vec2 " ++ t ++ "i2 = vec2(0, 1)-vec2(0, stepNow);" ++ cr ++
        getGLSLList "vec4" (n ++ "data")
          ((List.range tapsL).map (fun i => texture ++
            "(states, " ++ "fract(" ++ t ++ "uv2+fract((vec2(" ++ st ++
            toString i ++ ").ts+" ++ t ++ "i2)*" ++ t ++ "s2)))"))
          "" s.glsl ++ "\n" ++
      "// States may also be sampled by shifted step/texture.\n" ++
      "// Use `" ++ n ++ "data` list; ignore temporary `" ++ t ++ "` names.\n" ++
      tap ++ "2By(uv, states, stepNow, steps, textures, " ++ byArgs ++ ")" ++
        cr ++
        "vec2 " ++ t ++ "l2B = vec2(textures, steps);" ++ cr ++
        "vec2 " ++ t ++ "uv2B = vec2(uv)/" ++ t ++ "l2B;" ++ cr ++
        "vec2 " ++ t ++ "s2B = vec2(1, -1)/" ++ t ++ "l2B;" ++ cr ++
        "vec2 " ++ t ++ "i2B = vec2(" ++ byArgs ++ ").ts+vec2(0, 1)-vec2(0, stepNow);" ++
        cr ++
        getGLSLList "vec4" (n ++ "data")
          ((List.range tapsL).map (fun i => texture ++
            "(states, " ++ "fract(" ++ t ++ "uv2B+fract((vec2(" ++ st ++
            toString i ++ ").ts+" ++ t ++ "i2B)*" ++ t ++ "s2B)))"))
          "" s.glsl ++ "\n" ++
      (if !glsl3 then
        "// Preferred aliases: 2D suits merged texture in GLSL < 1.\n" ++
        aka ++ "2(uv, " ++ n ++ "states, " ++ n ++ "stepNow, " ++ n ++
          "steps, " ++ n ++ "textures)\n" ++
        akaBy ++ "2By(uv, " ++ n ++ "states, " ++ n ++ "stepNow, " ++ n ++
          "steps, " ++ n ++ "textures, " ++ byArgs ++ ")\n"
      else
        "// States merged to `sampler3D` or `sampler2DArray`; 2D `uv` " ++
          "to 3D; scales `x` over `textures`, `z` over `steps` as:\n" ++
        "// - `sampler3D`: the number of steps; depth, `[0, 1]`.\n" ++
        "// - `sampler2DArray`: `1` or less; layer, `[0, steps-1]`.\n" ++
        "// Use `" ++ n ++ "data` list; ignore temporary `" ++ t ++
          "` names.\n" ++
        tap ++ "3(uv, states, stepNow, steps, textures)" ++ cr ++
          "vec2 " ++ t ++ "l3 = vec2(textures, steps);" ++ cr ++
          "vec2 " ++ t ++ "uv3 = vec2(uv)/" ++ t ++ "l3;" ++ cr ++
          "float " ++ t ++ "sx3 = 1.0/" ++ t ++ "l3.x;" ++ cr ++
          "float " ++ t ++ "s3 = -float(stepNow);" ++ cr ++
          "float " ++ t ++ "sz3 = -1.0/" ++ t ++ "l3;" ++ cr ++
          getGLSLList "vec4" (n ++ "data")
            ((List.range tapsL).map (fun i => texture ++
              "(states, fract(vec3(" ++ t ++ "uv3.x+(float(" ++ st ++
              toString i ++ ".t)*" ++ t ++ "sx3), " ++ t ++ "uv3.y, " ++
              "(float(" ++ st ++ toString i ++ ".s)+" ++ t ++ "s3)*" ++ t ++
              "sz3)))"))
            "" s.glsl ++ "\n" ++
        "// States may also be sampled by shifted step/texture.\n" ++
        "// Use `" ++ n ++ "data` list; ignore temporary `" ++ t ++
          "` names.\n" ++
        tap ++ "3By(uv, states, stepNow, steps, textures, " ++ byArgs ++ ")" ++
          cr ++
          "vec2 " ++ t ++ "l3B = vec2(textures, steps);" ++ cr ++
          "vec2 " ++ t ++ "uv3B = (vec2(uv)+vec2(textureBy, 0))/" ++ t ++
            "l3B;" ++ cr ++
          "float " ++ t ++ "sx3B = 1.0/" ++ t ++ "l3B.x;" ++ cr ++
          "float " ++ t ++ "s3B = float(stepBy)-float(stepNow);" ++ cr ++
          "float " ++ t ++ "sz3B = -1.0/" ++ t ++ "l3B;" ++ cr ++
          getGLSLList "vec4" (n ++ "data")
            ((List.range tapsL).map (fun i => texture ++
              "(states, fract(vec3(" ++ t ++ "uv3B.x+(float(" ++ st ++
              toString i ++ ".t)*" ++ t ++ "sx3B), " ++ t ++ "uv3B.y, " ++
              "(float(" ++ st ++ toString i ++ ".s)+" ++ t ++ "s3B)*" ++ t ++
              "sz3B)))"))
            "" s.glsl ++ "\n" ++
        "// Preferred aliases: 3D suits merged texture in `GLSL` 3+.\n" ++
        aka ++ "3(uv, " ++ n ++ "states, " ++ n ++ "stepNow, " ++ n ++
          "steps, " ++ n ++ "textures)\n" ++
        akaBy ++ "3By(uv, " ++ n ++ "states, " ++ n ++ "stepNow, " ++ n ++
          "steps, " ++ n ++ "textures, " ++ byArgs ++ ")\n")) ++ "\n"))

/-- The `macroTaps` cache key (`${index}` prints the JS boolean). -/
def keyTaps (s : MacroState) : String :=
  "taps:" ++ s.pre ++ "," ++ toString s.passNow ++ "," ++
  jsonOpt jsonPairs (passSamplesOf s) ++ "," ++
  (if s.merge then "false" else "true") ++ "," ++ toString s.glsl

/-! ## The module-level macro cache (`macros.js` `cache`), threaded explicitly -/

/-- The cache holding each computed macro string under its key. -/
def MacroCache : Type := List (String × String)

/-- Cache lookup, most recent entry first. -/
def cacheGet : MacroCache → String → Option String
  | [], _ => none
  | (k, v) :: c, k2 => if k2 = k then some v else cacheGet c k2

/-- JS `cache[c] ??= v`: return the cached string when present, else store and
return the newly computed one. -/
def cachedOr (c : MacroCache) (k v : String) : String × MacroCache :=
  match cacheGet c k with
  | some r => (r, c)
  | none => (v, (k, v) :: c)

/-- `macroValues` with the cache threaded. -/
def macroValuesC (s : MacroState) (c : MacroCache) : String × MacroCache :=
  match hasMacrosRes s with
  | some h => (h, c)
  | none => cachedOr c (keyValues s) (macroValuesStr s)

/-- `macroOutput` with the cache threaded. -/
def macroOutputC (s : MacroState) (c : MacroCache) : String × MacroCache :=
  match hasMacrosRes s with
  | some h => (h, c)
  | none => cachedOr c (keyOutput s) (macroOutputStr s)

/-- `macroSamples` with the cache threaded. -/
def macroSamplesC (s : MacroState) (c : MacroCache) : String × MacroCache :=
  match hasMacrosRes s with
  | some h => (h, c)
  | none => cachedOr c (keySamples s) (macroSamplesStr s)

/-- `macroTaps` with the cache threaded. -/
def macroTapsC (s : MacroState) (c : MacroCache) : String × MacroCache :=
  match hasMacrosRes s with
  | some h => (h, c)
  | none => cachedOr c (keyTaps s) (macroTapsStr s)

/-- `macroPass`: the full set of macros for the active pass, with the cache
threaded through its four stages. -/
def macroPassC (s : MacroState) (c : MacroCache) : String × MacroCache :=
  match hasMacrosRes s with
  | some h => (h, c)
  | none =>
    let r1 := macroValuesC s c
    let r2 := macroOutputC s r1.2
    let r3 := macroSamplesC s r2.2
    let r4 := macroTapsC s r3.2
    (r1.1 ++ r2.1 ++ r3.1 ++ r4.1, r4.2)

/-! ## Channel characterisations used by the claims about `macroValues` and
`macroOutput` -/

/-- The channel slices a texture's values receive, starting at offset `i`:
each value's slice of `rgba` begins where the previous one ended. -/
def chanSlicesFrom (values : List Nat) : Nat → List Nat → List String
  | _, [] => []
  | i, v :: rest =>
    strSlice rgba i (i + widthOf values v) ::
      chanSlicesFrom values (i + widthOf values v) rest

/-- The channel slices of one texture's values, from offset `0`, exactly as the
inner folds of `macroValues`/`macroOutput` emit them. -/
def channelsSeq (values tex : List Nat) : List String :=
  chanSlicesFrom values 0 tex

/-- `macroValues` lines for a texture, rendered from value/channel pairs. -/
def texLinesOf (n : String) (t : Nat) (l : List (Nat × String)) (s0 : String) :
    String :=
  l.foldl (fun s p => s ++ texLine n t p.1 ++ chanLine n p.1 p.2) s0

/-- `macroOutput` lines for a bound texture, rendered from value/channel pairs. -/
def outLinesOf (n : String) (t bnd : Nat) (l : List (Nat × String))
    (s0 : String) : String :=
  l.foldl (fun s p => s ++ outLine n t bnd p.1 p.2) s0

/-! ## The step runner (`step.js` `getStep` → `to.run`)

The `run` function bumps `stepNow`, then issues one draw-pass command per entry
of `maps.passes`, setting `passNow` to the pass's index before each.  The
optional `onStep`/`onPass`/`merge.update` hooks are caller-supplied JS
functions, out of scope here; the draw trace records each `pass(...)` call. -/

/-- One issued draw-pass command: the `passNow` set for it and the pass's
texture map. -/
structure Draw where
  passNow : Nat
  map : List Nat
deriving DecidableEq

/-- The state slice `run` touches. -/
structure RunProps where
  stepNow : Option Int := none
  passNow : Option Nat := none
  maps : Maps
deriving DecidableEq

/-- JS `x || 0` for a number. -/
def jsOrZero (x : Int) : Int := if x = 0 then 0 else x

/-- JS `props.stepNow+1 || 0`: arithmetic on `undefined` is `NaN`, which
`|| 0` turns into `0`. -/
def stepNowInc : Option Int → Int
  | none => 0
  | some k => jsOrZero (k + 1)

/-- The body of the `each` over `maps.passes` in `run`: set `passNow` to the
pass index and issue the draw command. -/
def runPassF (acc : (RunProps × List Draw) × Nat) (p : List Nat) :
    (RunProps × List Draw) × Nat :=
  (({ acc.1.1 with passNow := some acc.2 }, acc.1.2 ++ [⟨acc.2, p⟩]), acc.2 + 1)

/-- `to.run`: bump `stepNow`, then draw each pass of `maps.passes` in order. -/
def runStep (s : RunProps) : RunProps × List Draw :=
  let s1 : RunProps := { s with stepNow := some (stepNowInc s.stepNow) }
  (s1.maps.passes.foldl runPassF ((s1, []), 0)).1

/-! ## The channel allocation and texture-creation flow of `getState`
(`state.js`) -/

/-- Sum of the widths of the values grouped in texture `t`
(the inner `reduce` of `passChannels`). -/
def texWidth (values : List Nat) (texturesMap : List (List Nat)) (t : Nat) :
    Nat :=
  (texturesMap.getD t []).foldl (fun sum v => sum + values.getD v 0) 0

/-- All framebuffer attachments need the same number of channels; enough to
hold all values a pass holds (`state.js` `passChannels`). -/
def passChannels (values : List Nat) (texturesMap : List (List Nat))
    (pass : List Nat) (min0 : Nat) : Nat :=
  pass.foldl (fun mn t => max mn (texWidth values texturesMap t)) min0

/-- If merging, the minimum channels for a reusable pool of texture
attachments that can hold any pass's values (`state.js` `mergeChannels`). -/
def mergeChannelsOf (merge : Bool) (values : List Nat)
    (texturesMap : List (List Nat)) (passes : List (List Nat))
    (channelsMin : Nat) : Option Nat :=
  if merge then
    some (passes.foldl
      (fun mn p => passChannels values texturesMap p mn) channelsMin)
  else none

/-- The merged pool's channel count: `mergeChannels` when merging. -/
def mergeChVal (m : Maps) : Nat :=
  m.passes.foldl (fun mn p => passChannels m.values m.textures p mn)
    m.channelsMin

/-- One texture attachment created during state setup, with its channel count
and the step, pass and texture-map index it was created for (`addTexture`'s
meta info restricted to what the claims need; the opaque handle from
`api.texture` is its creation-order id). -/
structure FlowTex where
  channels : Nat
  index : Nat
  step : Nat
  pass : Nat
deriving DecidableEq

/-- One attachment slot of a pass (`addTexture`): reuse the pool texture at
this slot when one exists (`color?.[entry]`), else create a texture with the
pass's channel count and append it to both the pool and the created list. -/
def texSlotF (channels idxStep pass : Nat)
    (acc : (List Nat × List FlowTex) × Nat) (index : Nat) :
    (List Nat × List FlowTex) × Nat :=
  ((match acc.1.1.get? acc.2 with
    | some _ => acc.1
    | none =>
      (acc.1.1 ++ [acc.1.2.length],
        acc.1.2 ++ [⟨channels, index, idxStep, pass⟩])),
    acc.2 + 1)

/-- The `map(addTexture(...), pass, ...)` call of `addPass`: fill the pass's
attachment slots from the given pool (shared when merging, fresh otherwise). -/
def passTexturesF (channels idxStep pass : Nat) (texL : List Nat)
    (pool : List Nat) (created : List FlowTex) : List Nat × List FlowTex :=
  (texL.foldl (texSlotF channels idxStep pass) ((pool, created), 0)).1

/-- One `addPass` call within a step: its attachments need
`mergeChannels ?? passChannels(pass, channelsMin)` channels each; the pool is
reused across passes only when merging. -/
def passSlotF (merge : Bool) (values : List Nat)
    (texturesMap : List (List Nat)) (channelsMin : Nat) (mergeCh : Option Nat)
    (idxStep : Nat) (acc : (List Nat × List FlowTex) × Nat)
    (pass : List Nat) : (List Nat × List FlowTex) × Nat :=
  let channels := mergeCh.getD (passChannels values texturesMap pass channelsMin)
  let r := passTexturesF channels idxStep acc.2 pass
    (if merge then acc.1.1 else []) acc.1.2
  (((if merge then r.1 else acc.1.1), r.2), acc.2 + 1)

/-- One step's `map(addPass(step), maps.passes)`. -/
def stepPassesF (merge : Bool) (values : List Nat)
    (texturesMap : List (List Nat)) (channelsMin : Nat) (mergeCh : Option Nat)
    (idxStep : Nat) (passes : List (List Nat)) (pool : List Nat)
    (created : List FlowTex) : List Nat × List FlowTex :=
  (passes.foldl
    (passSlotF merge values texturesMap channelsMin mergeCh idxStep)
    ((pool, created), 0)).1

/-- The whole `to.steps` setup loop of `getState`: every step maps `addPass`
over `maps.passes`, threading the shared colour pool and the created-texture
list.  (The additional merged-state texture `merge.all` and the copier
framebuffer `merge.next` are outside the step/pass flow.) -/
def flowState (merge : Bool) (m : Maps) (steps : Nat) :
    List Nat × List FlowTex :=
  (List.range steps).foldl
    (fun acc idxStep =>
      stepPassesF merge m.values m.textures m.channelsMin
        (mergeChannelsOf merge m.values m.textures m.passes m.channelsMin)
        idxStep m.passes acc.1 acc.2)
    ([], [])

/-- The texture attachments created during state setup, in creation order. -/
def flowTextures (merge : Bool) (m : Maps) (steps : Nat) : List FlowTex :=
  (flowState merge m steps).2

/-! ## The planner (`maps.js`), modelled from the spec

The repository's `maps.js` (`mapGroups`, `mapSamples`, `mapFlow`) is not among
the sources available here — only its callers, documentation and `const.js`
defaults are — so these definitions follow §4.1–§4.4 of the spec. -/

/-- Modelled from the spec: the ConfigurationError taxonomy of §7 for the
planner inputs the claims exercise (`maps.js` is missing from the sources). -/
inductive ConfigError where
  | widthOverMax (v w : Nat)
  | attachNonPositive
deriving DecidableEq

/-- Modelled from the spec: first-fit placement — put a value into the first
open texture bin whose remaining capacity accommodates its width, else open a
new bin (`maps.js` is missing from the sources).  A bin is its value-index
list with its used width. -/
def firstFit (cMax v w : Nat) : List (List Nat × Nat) → List (List Nat × Nat)
  | [] => [([v], w)]
  | b :: rest =>
    if b.2 + w ≤ cMax then (b.1 ++ [v], b.2 + w) :: rest
    else b :: firstFit cMax v w rest

/-- Modelled from the spec: the packing loop over values in declaration order;
a value wider than `channelMax` is a configuration error (`maps.js` is missing
from the sources). -/
def packGo (cMax : Nat) :
    Nat → List Nat → List (List Nat × Nat) →
      Except ConfigError (List (List Nat × Nat))
  | _, [], bins => .ok bins
  | i, w :: rest, bins =>
    if cMax < w then .error (.widthOverMax i w)
    else packGo cMax (i + 1) rest (firstFit cMax i w bins)

/-- Modelled from the spec: packing disabled — each value occupies its own
dedicated texture, still rejecting over-wide values (`maps.js` is missing from
the sources). -/
def packOne (cMax : Nat) : Nat → List Nat → Except ConfigError (List (List Nat))
  | _, [] => .ok []
  | i, w :: rest =>
    if cMax < w then .error (.widthOverMax i w)
    else (packOne cMax (i + 1) rest).map (fun r => [i] :: r)

/-- Modelled from the spec: the Channel Packer `pack(values, channelMax,
channelMin)` restricted to the texture groupings (`maps.js` is missing from
the sources). -/
def packValues (cMax : Nat) (packed : Bool) (values : List Nat) :
    Except ConfigError (List (List Nat)) :=
  if packed then (packGo cMax 0 values []).map (fun bins => bins.map (fun b => b.1))
  else packOne cMax 0 values

/-- Modelled from the spec: one grouping step — start a new pass when the
current one is full, else add the texture to it (`maps.js` is missing from the
sources). -/
def groupStepF (attachMax : Nat) (acc : List (List Nat) × List Nat) (x : Nat) :
    List (List Nat) × List Nat :=
  if acc.2.length = attachMax then (acc.1 ++ [acc.2], [x])
  else (acc.1, acc.2 ++ [x])

/-- Close the grouping: emit any non-empty pass still being accumulated. -/
def groupFlush (r : List (List Nat) × List Nat) : List (List Nat) :=
  if r.2 = [] then r.1 else r.1 ++ [r.2]

/-- Modelled from the spec: the Pass Grouper — greedily accumulate textures
into the current pass until adding the next would exceed `attachMax`, then
start a new pass, preserving texture order (`maps.js` is missing from the
sources). -/
def groupPasses (attachMax : Nat) (l : List Nat) : List (List Nat) :=
  groupFlush (l.foldl (groupStepF attachMax) ([], []))

/-- The texture and pass groupings of a plan. -/
structure MapsPlan where
  textures : List (List Nat)
  passes : List (List Nat)
deriving DecidableEq

/-- Modelled from the spec: `mapGroups` — pack values into textures, then
group the texture indices into passes; `attachMax` defaults to one texture
attachment per pass (`buffersMaxDef` in `const.js`) when omitted, and
`attachMax < 1` is a configuration error (`maps.js` is missing from the
sources). -/
def mapGroupsM (values : List Nat) (channelsMax : Nat)
    (buffersMax : Option Nat) (packed : Bool) :
    Except ConfigError MapsPlan :=
  let bMax := buffersMax.getD buffersMaxDef
  if bMax < 1 then .error .attachNonPositive
  else (packValues channelsMax packed values).map
    (fun texturesMap =>
      ⟨texturesMap, groupPasses bMax (List.range texturesMap.length)⟩)

/-- The `gpgpu` entry point's resolution of the attachments limit
(`index.js`): `maps.buffersMax = (buffersMax ?? maxDrawbuffers)`; the
planner's own default applies only when both are absent. -/
def gpgpuBuffersMax (buffersMax maxDrawbuffers : Option Nat) : Option Nat :=
  buffersMax <|> maxDrawbuffers

/-! ## Derives and the Dependency Sampler, modelled from the spec -/

/-- Modelled from the spec: one derive entry — a `(stepOffset, valueIndex)`
pair, a bare `valueIndex` (step offset `0`), or an all-values wildcard at a
step offset (`maps.js` is missing from the sources). -/
inductive Derive where
  | one (stepOff v : Nat)
  | val (v : Nat)
  | all (stepOff : Nat)
deriving DecidableEq

/-- The step offset a derive entry references. -/
def deriveOffset : Derive → Nat
  | .one s _ => s
  | .val _ => 0
  | .all s => s

/-- The maximum step offset referenced across all derive entries (over `Nat`
offsets, the spec's "rounded up" is the identity). -/
def maxStepOffset (derives : List (List Derive)) : Nat :=
  (derives.map (fun l => (l.map deriveOffset).foldr max 0)).foldr max 0

/-- The index of the texture holding value `v`. -/
def textureOf (texturesMap : List (List Nat)) (v : Nat) : Nat :=
  texturesMap.findIdx (fun tex => tex.contains v)

/-- Modelled from the spec: the `(stepOffset, textureIndex)` coordinates one
derive entry requires; a wildcard expands to one coordinate per texture at
that offset (`maps.js` is missing from the sources). -/
def coordsOf (texturesMap : List (List Nat)) : Derive → List (Nat × Nat)
  | .one s v => [(s, textureOf texturesMap v)]
  | .val v => [(0, textureOf texturesMap v)]
  | .all s => (List.range texturesMap.length).map (fun t => (s, t))

/-- The values bound for output in a pass, in texture order. -/
def passValues (texturesMap : List (List Nat)) (pass : List Nat) : List Nat :=
  (pass.map (fun t => texturesMap.getD t [])).flatten

/-- The stream of coordinates required by a pass's values' derives, in
traversal order (values in texture order, each value's derive list in order,
wildcards expanded in texture order). -/
def passReqs (texturesMap : List (List Nat)) (derives : List (List Derive))
    (pass : List Nat) : List (Nat × Nat) :=
  ((passValues texturesMap pass).map
    (fun v => ((derives.getD v []).map (coordsOf texturesMap)).flatten)).flatten

/-- Modelled from the spec: deduplicate one coordinate into the ordered sample
list — keep the list unchanged when the coordinate is already present, else
append it (`maps.js` is missing from the sources). -/
def sampleStep (smp : List (Nat × Nat)) (c : Nat × Nat) : List (Nat × Nat) :=
  if c ∈ smp then smp else smp ++ [c]

/-- Modelled from the spec: a pass's deduplicated, first-seen-first-indexed
sample list (`maps.js` is missing from the sources). -/
def samplesOfPass (texturesMap : List (List Nat))
    (derives : List (List Derive)) (pass : List Nat) : List (Nat × Nat) :=
  (passReqs texturesMap derives pass).foldl sampleStep []

/-- Modelled from the spec: one value's read indices into its pass's sample
list, in derive order with wildcards expanded (`maps.js` is missing from the
sources). -/
def readsOfValue (texturesMap : List (List Nat))
    (derives : List (List Derive)) (pass : List Nat) (v : Nat) : List Nat :=
  (((derives.getD v []).map (coordsOf texturesMap)).flatten).map
    (fun c =>
      (samplesOfPass texturesMap derives pass).findIdx (fun x => x = c))

/-- First-occurrence deduplication, specified independently of the sampler's
fold: keep the head, drop its later duplicates, recurse. -/
def dedupFirst {α : Type} [DecidableEq α] : List α → List α
  | [] => []
  | c :: rest => c :: dedupFirst (rest.filter (fun x => x ≠ c))
termination_by l => l.length
decreasing_by
  simp only [List.length_cons]
  exact Nat.lt_succ_of_le (rest.length_filter_le _)

/-- The largest element of a list of naturals (`0` for the empty list). -/
def maxL (l : List Nat) : Nat := l.foldr max 0

/-! ## Concrete instances used by counterexamples and witnesses -/

/-- A single one-channel value in one texture and one pass. -/
def mapsOneValue : Maps :=
  { values := [1], textures := [[0]], passes := [[0]] }

/-- A macro state tracking five steps of the single-value maps. -/
def stateSteps5 : MacroState := { steps := 5, maps := mapsOneValue }

/-- One derive: the value reads itself one step back. -/
def derivesSelf1 : List (List Derive) := [[Derive.one 1 0]]

/-- A one-channel and a four-channel value in their own textures, one texture
per pass, with a channel floor of `1`. -/
def mapsTwoTex : Maps :=
  { values := [1, 4], textures := [[0], [1]], passes := [[0], [1]],
    channelsMin := 1 }

/-- The plan for widths `[1, 1]` packed under the defaults. -/
def planOneTex : MapsPlan := ⟨[[0, 1]], [[0]]⟩

/-- The plan for widths `[2, 3]` packed under the defaults. -/
def planTwoTex : MapsPlan := ⟨[[0], [1]], [[0], [1]]⟩

/-! # Theorems -/

/-! ## Cache behaviour (`macros.js` `cache`, claim C1) -/

/-- After `cache[k] ??= v`, looking `k` up yields exactly the returned string. -/
theorem cacheGet_cachedOr_self (c : MacroCache) (k v : String) :
    cacheGet (cachedOr c k v).2 k = some (cachedOr c k v).1 := by
  unfold cachedOr
  cases h : cacheGet c k with
  | some r => simpa using h
  | none => simp [cacheGet]

/-- `cache[k] ??= v` never disturbs an entry already present. -/
theorem cacheGet_cachedOr_mono (c : MacroCache) (k v k0 r0 : String)
    (h : cacheGet c k0 = some r0) :
    cacheGet (cachedOr c k v).2 k0 = some r0 := by
  unfold cachedOr
  cases hk : cacheGet c k with
  | some r => simpa using h
  | none =>
    simp only [cacheGet]
    by_cases he : k0 = k
    · subst he; rw [h] at hk; cases hk
    · simp [he, h]

/-- `cache[k] ??= v` returns the cached string untouched on a hit. -/
theorem cachedOr_hit (c : MacroCache) (k v r : String)
    (h : cacheGet c k = some r) : cachedOr c k v = (r, c) := by
  unfold cachedOr; rw [h]

/-- C1: two calls of the macro-generation pipeline with structurally equal
inputs produce structurally equal outputs; in particular, replaying
`macroPass` on the very cache the first call produced returns the identical
string, whatever cache state the pipeline started from. -/
theorem macroPass_deterministic_under_cache (s : MacroState) (c0 : MacroCache) :
    (macroPassC s (macroPassC s c0).2).1 = (macroPassC s c0).1 := by
  cases hm : hasMacrosRes s with
  | some h => simp [macroPassC, hm]
  | none =>
    simp only [macroPassC, macroValuesC, macroOutputC, macroSamplesC,
      macroTapsC, hm]
    set kV := keyValues s with hkV
    set fV := macroValuesStr s with hfV
    set kO := keyOutput s with hkO
    set fO := macroOutputStr s with hfO
    set kS := keySamples s with hkS
    set fS := macroSamplesStr s with hfS
    set kT := keyTaps s with hkT
    set fT := macroTapsStr s with hfT
    set c1 := (cachedOr c0 kV fV).2 with hc1
    set v1 := (cachedOr c0 kV fV).1 with hv1
    set c2 := (cachedOr c1 kO fO).2 with hc2
    set o1 := (cachedOr c1 kO fO).1 with ho1
    set c3 := (cachedOr c2 kS fS).2 with hc3
    set s1 := (cachedOr c2 kS fS).1 with hs1
    set c4 := (cachedOr c3 kT fT).2 with hc4
    set t1 := (cachedOr c3 kT fT).1 with ht1
    have hV : cacheGet c4 kV = some v1 :=
      cacheGet_cachedOr_mono _ kT fT _ _
        (cacheGet_cachedOr_mono _ kS fS _ _
          (cacheGet_cachedOr_mono _ kO fO _ _
            (cacheGet_cachedOr_self c0 kV fV)))
    have hO : cacheGet c4 kO = some o1 :=
      cacheGet_cachedOr_mono _ kT fT _ _
        (cacheGet_cachedOr_mono _ kS fS _ _
          (cacheGet_cachedOr_self c1 kO fO))
    have hS : cacheGet c4 kS = some s1 :=
      cacheGet_cachedOr_mono _ kT fT _ _ (cacheGet_cachedOr_self c2 kS fS)
    have hT : cacheGet c4 kT = some t1 := cacheGet_cachedOr_self c3 kT fT
    have e1 : cachedOr c4 kV fV = (v1, c4) := cachedOr_hit _ _ _ _ hV
    have e2 : cachedOr c4 kO fO = (o1, c4) := cachedOr_hit _ _ _ _ hO
    have e3 : cachedOr c4 kS fS = (s1, c4) := cachedOr_hit _ _ _ _ hS
    have e4 : cachedOr c4 kT fT = (t1, c4) := cachedOr_hit _ _ _ _ hT
    simp only [e1, e2, e3, e4]

/-! ## The step runner (claim C9) -/

/-- The `each` over `maps.passes` issues one draw per pass in list order,
numbering `passNow` consecutively, and leaves `stepNow` alone. -/
theorem runFold_draws (l : List (List Nat)) :
    ∀ (p : RunProps) (ds : List Draw) (i : Nat),
      (l.foldl runPassF ((p, ds), i)).1.2.map Draw.map = ds.map Draw.map ++ l
      ∧ (l.foldl runPassF ((p, ds), i)).1.2.map Draw.passNow
          = ds.map Draw.passNow ++ List.range' i l.length 1
      ∧ (l.foldl runPassF ((p, ds), i)).1.1.stepNow = p.stepNow := by
  induction l with
  | nil => intro p ds i; simp
  | cons hd tl ih =>
    intro p ds i
    simp only [List.foldl_cons, runPassF]
    have h := ih { p with passNow := some i } (ds ++ [⟨i, hd⟩]) (i + 1)
    simp only [List.map_append, List.map_cons, List.map_nil] at h
    refine ⟨?_, ?_, ?_⟩
    · rw [h.1]; simp
    · rw [h.2.1, List.length_cons, List.range'_succ]; simp
    · exact h.2.2

/-- C9: every call of the step function issues the pass draw command exactly
once per entry of `maps.passes`, in list order with `passNow` set to each
pass's index, after bumping `stepNow` by one (`0` when it was unset). -/
theorem step_run_draws_each_pass_once (s : RunProps) :
    (runStep s).2.map Draw.map = s.maps.passes
    ∧ (runStep s).2.map Draw.passNow = List.range s.maps.passes.length
    ∧ (runStep s).1.stepNow =
        some ((s.stepNow.map (fun k => k + 1)).getD 0) := by
  have h := runFold_draws s.maps.passes
    { s with stepNow := some (stepNowInc s.stepNow) } [] 0
  simp only [List.map_nil, List.nil_append] at h
  unfold runStep
  refine ⟨h.1, ?_, ?_⟩
  · rw [h.2.1, List.range_eq_range' s.maps.passes.length]
  · rw [h.2.2]
    cases hs : s.stepNow with
    | none => simp [stepNowInc]
    | some k =>
      simp only [stepNowInc, jsOrZero, Option.map_some', Option.getD_some]
      rcases eq_or_ne (k + 1) 0 with hc | hc
      · simp [hc]
      · simp [hc]

/-! ## The `stepsPast` count (claim C5) -/

/-- C5 counterexample: with `steps = 5`, the default `bound = 1` and a derive
list whose maximum referenced step offset is `1`, the pipeline's derived
past-steps count is `4`, not the claimed maximum step offset. -/
theorem steps_past_claim_counterexample :
    stepsPastOf stateSteps5 = 4
    ∧ maxStepOffset derivesSelf1 = 1
    ∧ stepsPastOf stateSteps5 ≠ (maxStepOffset derivesSelf1 : Int) := by
  refine ⟨by decide, by decide, by decide⟩

/-- C5 amended: the past-steps count in the generated macros is the configured
step count minus the bound (how many steps are bound as outputs, default `1`);
`macroValues` emits exactly the line `#define <pre>stepsPast <steps-bound>`,
independent of the derives. -/
theorem steps_past_line_equals_steps_minus_bound (s : MacroState) :
    ∃ a b : String, macroValuesStr s =
      a ++ ("#define " ++ s.pre ++ "stepsPast " ++ toString (stepsPastOf s) ++
        "\n") ++ b := by
  refine ⟨valuesBody s.pre s.maps.values s.maps.textures ++
      (if countShown s.count then
        "#define count " ++ toString (s.count.getD 0) ++ "\n" else "") ++
      "#define " ++ s.pre ++ "textures " ++
        toString s.maps.textures.length ++ "\n" ++
      "#define " ++ s.pre ++ "passes " ++
        toString s.maps.passes.length ++ "\n",
    "#define " ++ s.pre ++ "steps " ++ toString s.steps ++ "\n" ++
      "#define " ++ s.pre ++ "bound " ++ toString s.bound ++ "\n\n", ?_⟩
  simp only [macroValuesStr, String.append_assoc]

/-! ## Channel offsets within a texture (claim C7) -/

/-- The inner fold of `macroValues` from any start offset renders exactly the
value/channel pairs given by `chanSlicesFrom`. -/
theorem texChunk_fold_eq (n : String) (values : List Nat) (t : Nat) :
    ∀ (tex : List Nat) (s0 : String) (i : Nat),
      (tex.foldl (texStepF n values t) (s0, i)).1
        = texLinesOf n t (tex.zip (chanSlicesFrom values i tex)) s0 := by
  intro tex
  induction tex with
  | nil => intro s0 i; simp [texLinesOf]
  | cons v rest ih =>
    intro s0 i
    simp only [List.foldl_cons, texStepF, chanSlicesFrom, List.zip_cons_cons,
      texLinesOf, List.foldl_cons]
    exact ih _ _

/-- The per-texture fold of `macroValues` renders the `channelsSeq` slices. -/
theorem texChunk_eq (n : String) (values : List Nat) (t : Nat) (tex : List Nat)
    (s0 : String) :
    texChunk n values t tex s0
      = texLinesOf n t (tex.zip (channelsSeq values tex)) s0 := by
  unfold texChunk channelsSeq
  exact texChunk_fold_eq n values t tex s0 0

/-- The inner fold of `macroOutput` from any start offset renders exactly the
value/channel pairs given by `chanSlicesFrom`. -/
theorem outChunk_fold_eq (n : String) (values : List Nat) (t bnd : Nat) :
    ∀ (tex : List Nat) (s0 : String) (i : Nat),
      (tex.foldl (outStepF n values t bnd) (s0, i)).1
        = outLinesOf n t bnd (tex.zip (chanSlicesFrom values i tex)) s0 := by
  intro tex
  induction tex with
  | nil => intro s0 i; simp [outLinesOf]
  | cons v rest ih =>
    intro s0 i
    simp only [List.foldl_cons, outStepF, chanSlicesFrom, List.zip_cons_cons,
      outLinesOf, List.foldl_cons]
    exact ih _ _

/-- The per-texture fold of `macroOutput` renders the `channelsSeq` slices. -/
theorem outChunk_eq (n : String) (values : List Nat) (t bnd : Nat)
    (tex : List Nat) (s0 : String) :
    outChunk n values t bnd tex s0
      = outLinesOf n t bnd (tex.zip (channelsSeq values tex)) s0 := by
  unfold outChunk channelsSeq
  exact outChunk_fold_eq n values t bnd tex s0 0

/-- The `j`-th slice from offset `i` starts at `i` plus the widths before it. -/
theorem chanSlicesFrom_getD (values : List Nat) :
    ∀ (tex : List Nat) (i j : Nat), j < tex.length →
      (chanSlicesFrom values i tex).getD j ""
        = strSlice rgba (i + widthSum values (tex.take j))
            (i + widthSum values (tex.take j) + widthOf values (tex.getD j 0)) := by
  intro tex
  induction tex with
  | nil => intro i j hj; cases hj
  | cons v rest ih =>
    intro i j hj
    cases j with
    | zero => simp [chanSlicesFrom, widthSum]
    | succ j =>
      have hj2 : j < rest.length := Nat.lt_of_succ_lt_succ hj
      have h := ih (i + widthOf values v) j hj2
      have e1 : widthSum values ((v :: rest).take (j + 1))
          = widthOf values v + widthSum values (rest.take j) := by
        simp [widthSum]
      have e2 : (v :: rest).getD (j + 1) 0 = rest.getD j 0 := rfl
      calc (chanSlicesFrom values i (v :: rest)).getD (j + 1) ""
          = (chanSlicesFrom values (i + widthOf values v) rest).getD j "" := rfl
        _ = strSlice rgba (i + widthOf values v + widthSum values (rest.take j))
              (i + widthOf values v + widthSum values (rest.take j)
                + widthOf values (rest.getD j 0)) := h
        _ = strSlice rgba (i + widthSum values ((v :: rest).take (j + 1)))
              (i + widthSum values ((v :: rest).take (j + 1))
                + widthOf values ((v :: rest).getD (j + 1) 0)) := by
            rw [e1, e2]
            simp only [Nat.add_assoc]

/-- The widths up to and including the `j`-th value never exceed the texture's
total packed width. -/
theorem widthSum_take_le (values : List Nat) :
    ∀ (tex : List Nat) (j : Nat), j < tex.length →
      widthSum values (tex.take j) + widthOf values (tex.getD j 0)
        ≤ widthSum values tex := by
  intro tex
  induction tex with
  | nil => intro j hj; cases hj
  | cons v rest ih =>
    intro j hj
    cases j with
    | zero =>
      have e3 : widthSum values (v :: rest)
          = widthOf values v + widthSum values rest := by simp [widthSum]
      have e4 : widthSum values ((v :: rest).take 0) = 0 := rfl
      have e5 : (v :: rest).getD 0 0 = v := rfl
      rw [e3, e4, e5]
      omega
    | succ j =>
      have hj2 : j < rest.length := Nat.lt_of_succ_lt_succ hj
      have h := ih j hj2
      have e1 : widthSum values ((v :: rest).take (j + 1))
          = widthOf values v + widthSum values (rest.take j) := by
        simp [widthSum]
      have e2 : (v :: rest).getD (j + 1) 0 = rest.getD j 0 := rfl
      have e3 : widthSum values (v :: rest)
          = widthOf values v + widthSum values rest := by simp [widthSum]
      rw [e1, e2, e3]
      omega

/-- The length of an in-range slice. -/
theorem strSlice_length (s : String) (a b : Nat) (h1 : a ≤ b)
    (h2 : b ≤ s.length) : (strSlice s a b).length = b - a := by
  have he : (strSlice s a b).length = ((s.data.take b).drop a).length := rfl
  have hl : s.length = s.data.length := rfl
  rw [he, List.length_drop, List.length_take]
  omega

/-- C7: in both the per-value `macroValues` macros and the per-pass
`macroOutput` macros — whose channel texts are exactly the `channelsSeq`
slices — the `j`-th value of a texture gets the slice of `rgba` starting at
the sum of the widths of the values before it in that texture and spanning
exactly its own width of consecutive channels (the first value starting at
offset `0`). -/
theorem value_channel_offsets_consecutive (values tex : List Nat)
    (n : String) (t bnd : Nat) (s0 : String) (j : Nat)
    (hj : j < tex.length) (hw : widthSum values tex ≤ 4) :
    texChunk n values t tex s0
        = texLinesOf n t (tex.zip (channelsSeq values tex)) s0
    ∧ outChunk n values t bnd tex s0
        = outLinesOf n t bnd (tex.zip (channelsSeq values tex)) s0
    ∧ (channelsSeq values tex).getD j ""
        = strSlice rgba (widthSum values (tex.take j))
            (widthSum values (tex.take j) + widthOf values (tex.getD j 0))
    ∧ ((channelsSeq values tex).getD j "").length
        = widthOf values (tex.getD j 0) := by
  have hg := chanSlicesFrom_getD values tex 0 j hj
  simp only [Nat.zero_add] at hg
  have hg2 : (channelsSeq values tex).getD j ""
      = strSlice rgba (widthSum values (tex.take j))
          (widthSum values (tex.take j) + widthOf values (tex.getD j 0)) := hg
  have hle := widthSum_take_le values tex j hj
  refine ⟨texChunk_eq n values t tex s0, outChunk_eq n values t bnd tex s0,
    hg2, ?_⟩
  rw [hg2]
  rw [strSlice_length rgba _ _ (Nat.le_add_right _ _)
    (by have hr : rgba.length = 4 := rfl; omega)]
  omega

/-- Witness for C7 at `values = [1, 2, 1]` packed into one texture `[0, 1, 2]`:
the middle value's channel text is two characters long. -/
theorem value_channel_offsets_witness :
    ((channelsSeq [1, 2, 1] [0, 1, 2]).getD 1 "").length
      = widthOf [1, 2, 1] ([0, 1, 2].getD 1 0) :=
  (value_channel_offsets_consecutive [1, 2, 1] [0, 1, 2] "" 0 0 "" 1
    (by decide) (by decide)).2.2.2

/-! ## The pass sample list (claim C3) -/

/-- Membership is preserved by first-occurrence deduplication. -/
theorem mem_dedupFirst {α : Type} [DecidableEq α] (l : List α) (x : α) :
    x ∈ dedupFirst l ↔ x ∈ l := by
  induction l using dedupFirst.induct with
  | case1 => simp [dedupFirst]
  | case2 c rest ih =>
    rw [dedupFirst]
    simp only [List.mem_cons, ih, List.mem_filter, decide_eq_true_eq]
    by_cases hx : x = c
    · simp [hx]
    · simp [hx]

/-- First-occurrence deduplication leaves no duplicates. -/
theorem nodup_dedupFirst {α : Type} [DecidableEq α] (l : List α) :
    (dedupFirst l).Nodup := by
  induction l using dedupFirst.induct with
  | case1 => simp [dedupFirst]
  | case2 c rest ih =>
    rw [dedupFirst]
    refine List.nodup_cons.mpr ⟨?_, ih⟩
    intro hc
    rw [mem_dedupFirst] at hc
    simp [List.mem_filter] at hc

/-- The cons-equation of `dedupFirst`, restated for rewriting. -/
theorem dedupFirst_cons {α : Type} [DecidableEq α] (c : α) (rest : List α) :
    dedupFirst (c :: rest)
      = c :: dedupFirst (rest.filter (fun x => x ≠ c)) := by
  rw [dedupFirst]

/-- A duplicate-free list counts each of its members exactly once. -/
theorem count_one_of_nodup {α : Type} [BEq α] [LawfulBEq α] :
    ∀ (l : List α) (c : α), l.Nodup → c ∈ l → l.count c = 1 := by
  intro l
  induction l with
  | nil => intro c _ hm; cases hm
  | cons a rest ih =>
    intro c hn hm
    have hn2 := List.nodup_cons.mp hn
    rw [List.count_cons]
    rcases List.mem_cons.mp hm with he | hm2
    · have h0 : rest.count c = 0 :=
        List.count_eq_zero.mpr (by rw [← he] at hn2; exact hn2.1)
      rw [h0]
      simp [he.symm]
    · have hne : ¬ a == c := by
        intro hab
        exact hn2.1 (eq_of_beq hab ▸ hm2)
      rw [ih c hn2.2 hm2]
      simp [hne]

/-- The sampler's fold appends exactly the first occurrences of the
coordinates not already present. -/
theorem foldl_sampleStep_eq :
    ∀ (l : List (Nat × Nat)) (acc : List (Nat × Nat)),
      l.foldl sampleStep acc
        = acc ++ dedupFirst (l.filter (fun c => decide (c ∉ acc))) := by
  intro l
  induction l with
  | nil => intro acc; simp [dedupFirst]
  | cons c rest ih =>
    intro acc
    simp only [List.foldl_cons, List.filter_cons]
    by_cases hc : c ∈ acc
    · have hs : sampleStep acc c = acc := by simp [sampleStep, hc]
      rw [hs]
      simp only [hc, not_true_eq_false, decide_False]
      exact ih acc
    · have hs : sampleStep acc c = acc ++ [c] := by simp [sampleStep, hc]
      rw [hs, ih (acc ++ [c])]
      simp only [hc, not_false_eq_true, decide_True, if_true]
      rw [dedupFirst_cons]
      have hf : (rest.filter (fun x => decide (x ∉ acc))).filter
            (fun x => decide (x ≠ c))
          = rest.filter (fun x => decide (x ∉ acc ++ [c])) := by
        rw [List.filter_filter]
        refine List.filter_congr ?_
        intro x _
        by_cases h1 : x = c <;> by_cases h2 : x ∈ acc <;>
          simp [h1, h2, List.mem_append]
      rw [← hf]
      simp

/-- C3: for every pass, the sample list has no duplicate
`(stepOffset, textureIndex)` pairs, it is exactly the first-seen-first-indexed
deduplication of the pass's derive-requirement stream, and every derive
requirement of every value written in the pass is matched by exactly one entry
of the list. -/
theorem pass_sample_list_dedup_first_seen (texturesMap : List (List Nat))
    (derives : List (List Derive)) (pass : List Nat) :
    (samplesOfPass texturesMap derives pass).Nodup
    ∧ samplesOfPass texturesMap derives pass
        = dedupFirst (passReqs texturesMap derives pass)
    ∧ ∀ c ∈ passReqs texturesMap derives pass,
        (samplesOfPass texturesMap derives pass).count c = 1 := by
  have he : samplesOfPass texturesMap derives pass
      = dedupFirst (passReqs texturesMap derives pass) := by
    unfold samplesOfPass
    rw [foldl_sampleStep_eq _ []]
    have hfilter : (passReqs texturesMap derives pass).filter
          (fun c => decide (c ∉ ([] : List (Nat × Nat))))
        = passReqs texturesMap derives pass := by
      apply List.filter_eq_self.mpr
      intro a _
      simp
    rw [hfilter, List.nil_append]
  refine ⟨he ▸ nodup_dedupFirst _, he, ?_⟩
  intro c hc
  rw [he]
  exact count_one_of_nodup _ _ (nodup_dedupFirst _)
    ((mem_dedupFirst _ _).mpr hc)

/-! ## The Pass Grouper and packer (claims C4, C6, C8) -/

/-- Concatenating the grouped passes reproduces the input texture list after
whatever was already accumulated. -/
theorem groupFold_join (aMax : Nat) :
    ∀ (l : List Nat) (done : List (List Nat)) (cur : List Nat),
      (groupFlush (l.foldl (groupStepF aMax) (done, cur))).flatten
        = done.flatten ++ (cur ++ l) := by
  intro l
  induction l with
  | nil =>
    intro done cur
    by_cases hc : cur = [] <;> simp [groupFlush, hc]
  | cons x xs ih =>
    intro done cur
    simp only [List.foldl_cons, groupStepF]
    by_cases hl : cur.length = aMax
    · rw [if_pos hl, ih (done ++ [cur]) [x]]
      simp
    · rw [if_neg hl, ih done (cur ++ [x])]
      simp

/-- No grouped pass exceeds `attachMax` members. -/
theorem groupFold_len (aMax : Nat) (ha : 1 ≤ aMax) :
    ∀ (l : List Nat) (done : List (List Nat)) (cur : List Nat),
      cur.length ≤ aMax → (∀ p ∈ done, p.length ≤ aMax) →
      ∀ p ∈ groupFlush (l.foldl (groupStepF aMax) (done, cur)),
        p.length ≤ aMax := by
  intro l
  induction l with
  | nil =>
    intro done cur hcur hdone p hp
    simp only [List.foldl_nil] at hp
    unfold groupFlush at hp
    split at hp
    · exact hdone p hp
    · rcases List.mem_append.mp hp with h | h
      · exact hdone p h
      · rw [List.mem_singleton.mp h]; exact hcur
  | cons x xs ih =>
    intro done cur hcur hdone p hp
    simp only [List.foldl_cons, groupStepF] at hp
    by_cases hl : cur.length = aMax
    · rw [if_pos hl] at hp
      refine ih (done ++ [cur]) [x] (by simpa using ha) ?_ p hp
      intro q hq
      rcases List.mem_append.mp hq with h | h
      · exact hdone q h
      · rw [List.mem_singleton.mp h]; omega
    · rw [if_neg hl] at hp
      refine ih done (cur ++ [x]) ?_ hdone p hp
      have : cur.length + 1 ≤ aMax := by omega
      simpa using this

/-- Every grouped pass is non-empty. -/
theorem groupFold_pos (aMax : Nat) (ha : 1 ≤ aMax) :
    ∀ (l : List Nat) (done : List (List Nat)) (cur : List Nat),
      (∀ p ∈ done, 0 < p.length) →
      ∀ p ∈ groupFlush (l.foldl (groupStepF aMax) (done, cur)),
        0 < p.length := by
  intro l
  induction l with
  | nil =>
    intro done cur hdone p hp
    simp only [List.foldl_nil] at hp
    unfold groupFlush at hp
    split at hp
    · exact hdone p hp
    · rcases List.mem_append.mp hp with h | h
      · exact hdone p h
      · rw [List.mem_singleton.mp h]
        rename_i hc
        exact List.length_pos.mpr hc
  | cons x xs ih =>
    intro done cur hdone p hp
    simp only [List.foldl_cons, groupStepF] at hp
    by_cases hl : cur.length = aMax
    · rw [if_pos hl] at hp
      refine ih (done ++ [cur]) [x] ?_ p hp
      intro q hq
      rcases List.mem_append.mp hq with h | h
      · exact hdone q h
      · rw [List.mem_singleton.mp h]; omega
    · rw [if_neg hl] at hp
      exact ih done (cur ++ [x]) hdone p hp

/-- `groupPasses` reproduces its input in order, exactly once each. -/
theorem groupPasses_join (aMax : Nat) (l : List Nat) :
    (groupPasses aMax l).flatten = l := by
  unfold groupPasses
  simpa using groupFold_join aMax l [] []

/-- `groupPasses` caps every pass at `attachMax`. -/
theorem groupPasses_len (aMax : Nat) (ha : 1 ≤ aMax) (l : List Nat) :
    ∀ p ∈ groupPasses aMax l, p.length ≤ aMax := by
  unfold groupPasses
  exact groupFold_len aMax ha l [] [] (by simp) (by simp)

/-- `groupPasses` emits no empty pass. -/
theorem groupPasses_pos (aMax : Nat) (ha : 1 ≤ aMax) (l : List Nat) :
    ∀ p ∈ groupPasses aMax l, 0 < p.length := by
  unfold groupPasses
  exact groupFold_pos aMax ha l [] [] (by simp)

/-- Flattening singleton groups keeps the count. -/
theorem flatten_len_all_one :
    ∀ (ps : List (List Nat)), (∀ p ∈ ps, p.length = 1) →
      ps.flatten.length = ps.length := by
  intro ps
  induction ps with
  | nil => intro _; simp
  | cons p rest ih =>
    intro hall
    have hp : p.length = 1 := hall p (by simp)
    have := ih (fun q hq => hall q (by simp [hq]))
    simp [hp, this]
    omega

/-- C4: every produced pass holds at most `attachMax` textures, and
concatenating the passes' texture lists in pass order reproduces the full
texture list (the indices `0, …, textures-1`) in original order, each exactly
once. -/
theorem pass_grouping_bounded_order_preserving (values : List Nat)
    (cMax bMax : Nat) (packed : Bool) (m : MapsPlan) (hb : 1 ≤ bMax)
    (h : mapGroupsM values cMax (some bMax) packed = Except.ok m) :
    (∀ p ∈ m.passes, p.length ≤ bMax)
    ∧ m.passes.flatten = List.range m.textures.length := by
  simp only [mapGroupsM, Option.getD_some] at h
  rw [if_neg (by omega)] at h
  cases hp : packValues cMax packed values with
  | error e => rw [hp] at h; simp [Except.map] at h
  | ok texs =>
    rw [hp] at h
    simp only [Except.map, Except.ok.injEq] at h
    subst h
    exact ⟨groupPasses_len bMax hb _, by
      simpa using groupPasses_join bMax (List.range texs.length)⟩

/-- Witness for C4 at `values = [1, 1]`, `channelsMax = 4`, `attachMax = 1`,
packing enabled. -/
theorem pass_grouping_witness :
    (∀ p ∈ planOneTex.passes, p.length ≤ 1)
    ∧ planOneTex.passes.flatten = List.range planOneTex.textures.length :=
  pass_grouping_bounded_order_preserving [1, 1] 4 1 true planOneTex
    (by decide) (by rfl)

/-- C6: when the caller omits the maximum-attachments limit — no
`maps.buffersMax` and no `api.limits.maxDrawbuffers` for the `gpgpu` entry
point to substitute — planning defaults it to `1` texture attachment per draw
pass: every produced pass holds exactly one texture. -/
theorem buffers_max_default_single_attachment (values : List Nat)
    (cMax : Nat) (packed : Bool) (m : MapsPlan)
    (h : mapGroupsM values cMax (gpgpuBuffersMax none none) packed
        = Except.ok m) :
    (∀ p ∈ m.passes, p.length = 1)
    ∧ m.passes.length = m.textures.length := by
  have hg : gpgpuBuffersMax none none = none := rfl
  rw [hg] at h
  simp only [mapGroupsM, Option.getD_none] at h
  rw [if_neg (by decide)] at h
  cases hp : packValues cMax packed values with
  | error e => rw [hp] at h; simp [Except.map] at h
  | ok texs =>
    rw [hp] at h
    simp only [Except.map, Except.ok.injEq] at h
    subst h
    have hb1 : buffersMaxDef = 1 := rfl
    have hall : ∀ p ∈ groupPasses buffersMaxDef (List.range texs.length),
        p.length = 1 := by
      intro p hp2
      have h1 := groupPasses_len buffersMaxDef (by decide) _ p hp2
      have h2 := groupPasses_pos buffersMaxDef (by decide) _ p hp2
      omega
    refine ⟨hall, ?_⟩
    have hlen : (groupPasses buffersMaxDef (List.range texs.length)).flatten.length
        = texs.length := by
      rw [groupPasses_join]; simp
    rw [flatten_len_all_one _ hall] at hlen
    simpa using hlen

/-- Witness for C6 at `values = [2, 3]` with the limit omitted everywhere. -/
theorem buffers_max_default_witness :
    (∀ p ∈ planTwoTex.passes, p.length = 1)
    ∧ planTwoTex.passes.length = planTwoTex.textures.length :=
  buffers_max_default_single_attachment [2, 3] 4 true planTwoTex (by rfl)

/-- A packing pass over a list holding an over-wide value signals an error. -/
theorem packGo_error (cMax : Nat) :
    ∀ (l : List Nat) (i : Nat) (bins : List (List Nat × Nat)) (w : Nat),
      w ∈ l → cMax < w →
      ∃ e, packGo cMax i l bins = Except.error e := by
  intro l
  induction l with
  | nil => intro i bins w hw; cases hw
  | cons a rest ih =>
    intro i bins w hw hov
    by_cases ha : cMax < a
    · exact ⟨.widthOverMax i a, by simp [packGo, ha]⟩
    · rcases List.mem_cons.mp hw with he | hm
      · subst he; omega
      · obtain ⟨e, hee⟩ := ih (i + 1) (firstFit cMax i a bins) w hm hov
        exact ⟨e, by simp [packGo, ha, hee]⟩


/-- The unpacked one-texture-per-value path signals the same error. -/
theorem packOne_error (cMax : Nat) :
    ∀ (l : List Nat) (i : Nat) (w : Nat),
      w ∈ l → cMax < w →
      ∃ e, packOne cMax i l = Except.error e := by
  intro l
  induction l with
  | nil => intro i w hw; cases hw
  | cons a rest ih =>
    intro i w hw hov
    by_cases ha : cMax < a
    · exact ⟨.widthOverMax i a, by simp [packOne, ha]⟩
    · rcases List.mem_cons.mp hw with he | hm
      · subst he; omega
      · obtain ⟨e, hee⟩ := ih (i + 1) w hm hov
        exact ⟨e, by simp [packOne, ha, hee, Except.map]⟩

/-- C8: an input holding a value wider than `channelMax` makes planning signal
a ConfigurationError — no plan (truncated or otherwise) is produced. -/
theorem over_wide_value_errors (values : List Nat) (cMax : Nat)
    (buffersMax : Option Nat) (packed : Bool) (w : Nat)
    (hw : w ∈ values) (hover : cMax < w) :
    ∃ e, mapGroupsM values cMax buffersMax packed = Except.error e := by
  simp only [mapGroupsM]
  split
  · exact ⟨.attachNonPositive, rfl⟩
  · unfold packValues
    by_cases hp : packed
    · obtain ⟨e, he⟩ := packGo_error cMax values 0 [] w hw hover
      exact ⟨e, by simp [hp, he, Except.map]⟩
    · obtain ⟨e, he⟩ := packOne_error cMax values 0 w hw hover
      exact ⟨e, by simp [hp, he, Except.map]⟩

/-- Witness for C8: width `5` under `channelMax = 4` errors. -/
theorem over_wide_value_errors_witness :
    ∃ e, mapGroupsM [5] 4 none true = Except.error e :=
  over_wide_value_errors [5] 4 none true 5 (by decide) (by decide)

/-! ## Channel allocation and texture creation in `getState`
(claims C2, C10) -/

/-- `getD` agrees with a successful `get?`. -/
theorem getD_of_get? {α : Type} (d : α) :
    ∀ (l : List α) (n : Nat) (a : α), l.get? n = some a → l.getD n d = a := by
  intro l
  induction l with
  | nil => intro n a h; simp at h
  | cons b rest ih =>
    intro n a h
    cases n with
    | zero =>
      simp only [List.get?_cons_zero, Option.some.injEq] at h
      simp [List.getD_cons_zero, h]
    | succ n =>
      simp only [List.get?_cons_succ] at h
      simp only [List.getD_cons_succ]
      exact ih n a h

/-- A pass's channel count is at least the floor it starts from. -/
theorem passChannels_ge_init (values : List Nat) (tm : List (List Nat)) :
    ∀ (pass : List Nat) (m : Nat), m ≤ passChannels values tm pass m := by
  intro pass
  induction pass with
  | nil => intro m; exact Nat.le_refl m
  | cons t rest ih =>
    intro m
    calc m ≤ max m (texWidth values tm t) := Nat.le_max_left _ _
      _ ≤ passChannels values tm rest (max m (texWidth values tm t)) := ih _
      _ = passChannels values tm (t :: rest) m := rfl

/-- A pass's channel count covers each of its textures' packed widths. -/
theorem passChannels_ge_mem (values : List Nat) (tm : List (List Nat)) :
    ∀ (pass : List Nat) (m t : Nat), t ∈ pass →
      texWidth values tm t ≤ passChannels values tm pass m := by
  intro pass
  induction pass with
  | nil => intro m t ht; cases ht
  | cons a rest ih =>
    intro m t ht
    rcases List.mem_cons.mp ht with he | hm
    · subst he
      calc texWidth values tm t ≤ max m (texWidth values tm t) :=
            Nat.le_max_right _ _
        _ ≤ passChannels values tm rest (max m (texWidth values tm t)) :=
            passChannels_ge_init values tm rest _
        _ = passChannels values tm (t :: rest) m := rfl
    · exact ih (max m (texWidth values tm a)) t hm

/-- `passChannels` is monotone in its floor. -/
theorem passChannels_mono (values : List Nat) (tm : List (List Nat)) :
    ∀ (pass : List Nat) (m m2 : Nat), m ≤ m2 →
      passChannels values tm pass m ≤ passChannels values tm pass m2 := by
  intro pass
  induction pass with
  | nil => intro m m2 h; exact h
  | cons t rest ih =>
    intro m m2 h
    have : max m (texWidth values tm t) ≤ max m2 (texWidth values tm t) := by
      omega
    exact ih _ _ this

/-- The merged channel fold is at least the floor it starts from. -/
theorem mergeFold_ge_init (values : List Nat) (tm : List (List Nat)) :
    ∀ (passes : List (List Nat)) (i : Nat),
      i ≤ passes.foldl (fun mn p => passChannels values tm p mn) i := by
  intro passes
  induction passes with
  | nil => intro i; exact Nat.le_refl i
  | cons p rest ih =>
    intro i
    calc i ≤ passChannels values tm p i := passChannels_ge_init values tm p i
      _ ≤ rest.foldl (fun mn q => passChannels values tm q mn)
            (passChannels values tm p i) := ih _
      _ = (p :: rest).foldl (fun mn q => passChannels values tm q mn) i := rfl

/-- The merged channel fold covers each member pass's channel count. -/
theorem mergeFold_ge_mem (values : List Nat) (tm : List (List Nat)) :
    ∀ (passes : List (List Nat)) (i : Nat) (p : List Nat), p ∈ passes →
      passChannels values tm p i
        ≤ passes.foldl (fun mn q => passChannels values tm q mn) i := by
  intro passes
  induction passes with
  | nil => intro i p hp; cases hp
  | cons q rest ih =>
    intro i p hp
    rcases List.mem_cons.mp hp with he | hm
    · subst he
      exact mergeFold_ge_init values tm rest (passChannels values tm p i)
    · calc passChannels values tm p i
          ≤ passChannels values tm p (passChannels values tm q i) :=
            passChannels_mono values tm p _ _
              (passChannels_ge_init values tm q i)
        _ ≤ rest.foldl (fun mn r => passChannels values tm r mn)
              (passChannels values tm q i) := ih _ p hm
        _ = (q :: rest).foldl (fun mn r => passChannels values tm r mn) i := rfl

/-- `passChannels` as a plain maximum. -/
theorem passChannels_eq_max (values : List Nat) (tm : List (List Nat)) :
    ∀ (pass : List Nat) (m : Nat),
      passChannels values tm pass m
        = max m (maxL (pass.map (texWidth values tm))) := by
  intro pass
  induction pass with
  | nil => intro m; show m = max m (maxL []); simp [maxL]
  | cons t rest ih =>
    intro m
    calc passChannels values tm (t :: rest) m
        = passChannels values tm rest (max m (texWidth values tm t)) := rfl
      _ = max (max m (texWidth values tm t))
            (maxL (rest.map (texWidth values tm))) := ih _
      _ = max m (maxL ((t :: rest).map (texWidth values tm))) := by
          show _ = max m (max (texWidth values tm t)
            (maxL (rest.map (texWidth values tm))))
          omega

/-- `maxL` distributes over append. -/
theorem maxL_append (a b : List Nat) : maxL (a ++ b) = max (maxL a) (maxL b) := by
  induction a with
  | nil => show maxL b = max (maxL []) (maxL b); simp [maxL]
  | cons x rest ih =>
    simp only [List.cons_append]
    show max x (maxL (rest ++ b)) = max (max x (maxL rest)) (maxL b)
    rw [ih]
    omega

/-- The maximum over a flattened map is the nested maximum. -/
theorem maxL_map_flatten (f : Nat → Nat) :
    ∀ (ps : List (List Nat)),
      maxL (ps.flatten.map f) = maxL (ps.map (fun p => maxL (p.map f))) := by
  intro ps
  induction ps with
  | nil => rfl
  | cons p rest ih =>
    simp only [List.flatten_cons, List.map_append, List.map_cons]
    rw [maxL_append]
    show max (maxL (p.map f)) (maxL (rest.flatten.map f))
        = max (maxL (p.map f)) (maxL (rest.map fun q => maxL (q.map f)))
    rw [ih]

/-- The merged channel fold as a plain maximum. -/
theorem mergeFold_eq_max (values : List Nat) (tm : List (List Nat)) :
    ∀ (passes : List (List Nat)) (i : Nat),
      passes.foldl (fun mn p => passChannels values tm p mn) i
        = max i (maxL (passes.map (fun p => maxL (p.map (texWidth values tm))))) := by
  intro passes
  induction passes with
  | nil => intro i; show i = max i (maxL []); simp [maxL]
  | cons p rest ih =>
    intro i
    calc (p :: rest).foldl (fun mn q => passChannels values tm q mn) i
        = rest.foldl (fun mn q => passChannels values tm q mn)
            (passChannels values tm p i) := rfl
      _ = max (passChannels values tm p i)
            (maxL (rest.map (fun q => maxL (q.map (texWidth values tm))))) := ih _
      _ = max (max i (maxL (p.map (texWidth values tm))))
            (maxL (rest.map (fun q => maxL (q.map (texWidth values tm))))) := by
          rw [passChannels_eq_max]
      _ = max i (maxL (((p :: rest)).map
            (fun q => maxL (q.map (texWidth values tm))))) := by
          show _ = max i (max (maxL (p.map (texWidth values tm)))
            (maxL (rest.map fun q => maxL (q.map (texWidth values tm)))))
          omega

/-- `mergeChannels` is the maximum packed width over all passes, floored at
`channelsMin`. -/
theorem mergeChVal_flat (m : Maps) :
    mergeChVal m = max m.channelsMin
      (maxL (m.passes.flatten.map (texWidth m.values m.textures))) := by
  unfold mergeChVal
  rw [mergeFold_eq_max, maxL_map_flatten]

/-- `addTexture` on a filled slot reuses the pooled texture. -/
theorem texSlotF_hit (ch st ps : Nat) (pool : List Nat) (created : List FlowTex)
    (c v t : Nat) (hg : pool.get? c = some t) :
    texSlotF ch st ps ((pool, created), c) v = ((pool, created), c + 1) := by
  rw [List.get?_eq_getElem?] at hg
  simp [texSlotF, hg]

/-- `addTexture` on an empty slot creates a texture and appends it to the pool
and to the created list. -/
theorem texSlotF_miss (ch st ps : Nat) (pool : List Nat)
    (created : List FlowTex) (c v : Nat) (hg : pool.get? c = none) :
    texSlotF ch st ps ((pool, created), c) v
      = ((pool ++ [created.length], created ++ [⟨ch, v, st, ps⟩]), c + 1) := by
  rw [List.get?_eq_getElem?] at hg
  simp [texSlotF, hg]

/-- Filling a pass's slots: the pool grows exactly to cover the pass, the
created list grows by the same amount, and every new texture carries the
pass's channel count, step, pass index and one of the pass's texture-map
indices. -/
theorem texSlot_fold_spec (ch st ps : Nat) :
    ∀ (texL : List Nat) (pool : List Nat) (created : List FlowTex) (c : Nat),
      c ≤ pool.length →
      (texL.foldl (texSlotF ch st ps) ((pool, created), c)).1.1.length
          = max pool.length (c + texL.length)
      ∧ (texL.foldl (texSlotF ch st ps) ((pool, created), c)).1.2.length
          = created.length + (max pool.length (c + texL.length) - pool.length)
      ∧ ∀ x ∈ (texL.foldl (texSlotF ch st ps) ((pool, created), c)).1.2,
          x ∈ created
          ∨ (x.channels = ch ∧ x.step = st ∧ x.pass = ps ∧ x.index ∈ texL) := by
  intro texL
  induction texL with
  | nil =>
    intro pool created c hc
    refine ⟨?_, ?_, ?_⟩
    · simp; omega
    · simp; omega
    · intro x hx
      simp only [List.foldl_nil] at hx
      exact Or.inl hx
  | cons v rest ih =>
    intro pool created c hc
    simp only [List.foldl_cons]
    cases hg : pool.get? c with
    | some t =>
      have hlt : c < pool.length := by
        by_contra hnot
        rw [List.get?_eq_none.mpr (Nat.le_of_not_lt hnot)] at hg
        cases hg
      rw [texSlotF_hit ch st ps pool created c v t hg]
      have h := ih pool created (c + 1) (by omega)
      refine ⟨?_, ?_, ?_⟩
      · rw [h.1]; simp only [List.length_cons]; omega
      · rw [h.2.1]; simp only [List.length_cons]; omega
      · intro x hx
        rcases h.2.2 x hx with hin | ⟨h1, h2, h3, h4⟩
        · exact Or.inl hin
        · exact Or.inr ⟨h1, h2, h3, List.mem_cons_of_mem v h4⟩
    | none =>
      have hce : c = pool.length := by
        have := List.get?_eq_none.mp hg
        omega
      rw [texSlotF_miss ch st ps pool created c v hg]
      have hlen : (pool ++ [created.length]).length = pool.length + 1 := by simp
      have h := ih (pool ++ [created.length])
        (created ++ [⟨ch, v, st, ps⟩]) (c + 1) (by rw [hlen]; omega)
      refine ⟨?_, ?_, ?_⟩
      · rw [h.1]
        simp only [List.length_append, List.length_cons, List.length_nil]
        omega
      · rw [h.2.1]
        simp only [List.length_append, List.length_cons, List.length_nil]
        omega
      · intro x hx
        rcases h.2.2 x hx with hin | ⟨h1, h2, h3, h4⟩
        · rcases List.mem_append.mp hin with hi2 | hi2
          · exact Or.inl hi2
          · rw [List.mem_singleton.mp hi2]
            exact Or.inr ⟨rfl, rfl, rfl, List.mem_cons_self v rest⟩
        · exact Or.inr ⟨h1, h2, h3, List.mem_cons_of_mem v h4⟩

/-- The textures created for one pass, tagged with its channels and indices. -/
theorem passTexturesF_entries (ch st ps : Nat) (texL pool : List Nat)
    (created : List FlowTex) :
    ∀ x ∈ (passTexturesF ch st ps texL pool created).2,
      x ∈ created
      ∨ (x.channels = ch ∧ x.step = st ∧ x.pass = ps ∧ x.index ∈ texL) := by
  unfold passTexturesF
  exact (texSlot_fold_spec ch st ps texL pool created 0 (Nat.zero_le _)).2.2

/-- Pool and created-list lengths after filling one pass's slots. -/
theorem passTexturesF_lens (ch st ps : Nat) (texL pool : List Nat)
    (created : List FlowTex) (h : pool.length = created.length) :
    (passTexturesF ch st ps texL pool created).1.length
        = max pool.length texL.length
    ∧ (passTexturesF ch st ps texL pool created).2.length
        = (passTexturesF ch st ps texL pool created).1.length := by
  unfold passTexturesF
  have hh := texSlot_fold_spec ch st ps texL pool created 0 (Nat.zero_le _)
  constructor
  · rw [hh.1]; omega
  · rw [hh.2.1, hh.1]; omega

/-- `addPass` with merging reuses and extends the shared pool. -/
theorem passSlotF_true (values : List Nat) (tm : List (List Nat)) (cMin : Nat)
    (mc : Option Nat) (st : Nat) (pool : List Nat) (created : List FlowTex)
    (i : Nat) (pass : List Nat) :
    passSlotF true values tm cMin mc st ((pool, created), i) pass
      = (((passTexturesF (mc.getD (passChannels values tm pass cMin)) st i pass
            pool created).1,
          (passTexturesF (mc.getD (passChannels values tm pass cMin)) st i pass
            pool created).2), i + 1) := rfl

/-- `addPass` without merging uses a fresh pool and keeps the old one. -/
theorem passSlotF_false (values : List Nat) (tm : List (List Nat)) (cMin : Nat)
    (mc : Option Nat) (st : Nat) (pool : List Nat) (created : List FlowTex)
    (i : Nat) (pass : List Nat) :
    passSlotF false values tm cMin mc st ((pool, created), i) pass
      = ((pool,
          (passTexturesF (mc.getD (passChannels values tm pass cMin)) st i pass
            [] created).2), i + 1) := rfl

/-- Every texture created while processing a step's passes either predates the
step or belongs to one of the passes, carrying that pass's channel count. -/
theorem stepPasses_entries (merge : Bool) (values : List Nat)
    (tm : List (List Nat)) (cMin : Nat) (mc : Option Nat) (st : Nat) :
    ∀ (passes : List (List Nat)) (pool : List Nat) (created : List FlowTex)
      (i : Nat),
      ∀ x ∈ (passes.foldl (passSlotF merge values tm cMin mc st)
          ((pool, created), i)).1.2,
        x ∈ created
        ∨ ∃ j p, passes.get? j = some p ∧ x.pass = i + j ∧ x.index ∈ p
            ∧ x.channels = mc.getD (passChannels values tm p cMin) := by
  intro passes
  induction passes with
  | nil =>
    intro pool created i x hx
    simp only [List.foldl_nil] at hx
    exact Or.inl hx
  | cons hd tl ih =>
    intro pool created i x hx
    simp only [List.foldl_cons] at hx
    cases merge with
    | true =>
      rw [passSlotF_true] at hx
      rcases ih _ _ (i + 1) x hx with hin | ⟨j, p, hj, hp, hix, hch⟩
      · rcases passTexturesF_entries _ _ _ _ _ _ x hin with hin2 | ⟨h1, _, h3, h4⟩
        · exact Or.inl hin2
        · exact Or.inr ⟨0, hd, rfl, by omega, h4, h1⟩
      · exact Or.inr ⟨j + 1, p, by simpa using hj, by omega, hix, hch⟩
    | false =>
      rw [passSlotF_false] at hx
      rcases ih _ _ (i + 1) x hx with hin | ⟨j, p, hj, hp, hix, hch⟩
      · rcases passTexturesF_entries _ _ _ _ _ _ x hin with hin2 | ⟨h1, _, h3, h4⟩
        · exact Or.inl hin2
        · exact Or.inr ⟨0, hd, rfl, by omega, h4, h1⟩
      · exact Or.inr ⟨j + 1, p, by simpa using hj, by omega, hix, hch⟩

/-- With merging, after a step's passes the shared pool covers the largest
pass and stays in lockstep with the created list. -/
theorem stepPasses_merge_len (values : List Nat) (tm : List (List Nat))
    (cMin mcv st : Nat) :
    ∀ (passes : List (List Nat)) (pool : List Nat) (created : List FlowTex)
      (i : Nat), pool.length = created.length →
      (passes.foldl (passSlotF true values tm cMin (some mcv) st)
          ((pool, created), i)).1.1.length
        = max pool.length (maxL (passes.map List.length))
      ∧ (passes.foldl (passSlotF true values tm cMin (some mcv) st)
          ((pool, created), i)).1.2.length
        = (passes.foldl (passSlotF true values tm cMin (some mcv) st)
            ((pool, created), i)).1.1.length := by
  intro passes
  induction passes with
  | nil =>
    intro pool created i h
    constructor
    · show pool.length = max pool.length (maxL [])
      simp [maxL]
    · exact h.symm
  | cons hd tl ih =>
    intro pool created i h
    simp only [List.foldl_cons]
    rw [passSlotF_true]
    simp only [Option.getD_some]
    have hl := passTexturesF_lens mcv st i hd pool created h
    have hih := ih (passTexturesF mcv st i hd pool created).1
      (passTexturesF mcv st i hd pool created).2 (i + 1) hl.2.symm
    refine ⟨?_, hih.2⟩
    rw [hih.1, hl.1]
    show max (max pool.length hd.length) (maxL (tl.map List.length))
        = max pool.length (max hd.length (maxL (tl.map List.length)))
    omega

/-- One more step applies `addPass` over `maps.passes` to the carried state. -/
theorem flowState_succ (merge : Bool) (m : Maps) (k : Nat) :
    flowState merge m (k + 1)
      = stepPassesF merge m.values m.textures m.channelsMin
          (mergeChannelsOf merge m.values m.textures m.passes m.channelsMin)
          k m.passes (flowState merge m k).1 (flowState merge m k).2 := by
  unfold flowState
  rw [List.range_succ, List.foldl_append, List.foldl_cons, List.foldl_nil]

/-- Every texture the state setup creates belongs to one of `maps.passes` and
carries that pass's channel count (`mergeChannels ?? passChannels`). -/
theorem flow_entries (merge : Bool) (m : Maps) :
    ∀ (steps : Nat), ∀ x ∈ (flowState merge m steps).2,
      ∃ j p, m.passes.get? j = some p ∧ x.pass = j ∧ x.index ∈ p
        ∧ x.channels
            = (mergeChannelsOf merge m.values m.textures m.passes
                m.channelsMin).getD
              (passChannels m.values m.textures p m.channelsMin) := by
  intro steps
  induction steps with
  | zero =>
    intro x hx
    simp [flowState] at hx
  | succ k ih =>
    intro x hx
    rw [flowState_succ] at hx
    unfold stepPassesF at hx
    rcases stepPasses_entries merge m.values m.textures m.channelsMin
        (mergeChannelsOf merge m.values m.textures m.passes m.channelsMin)
        k m.passes _ _ 0 x hx with hin | ⟨j, p, hj, hp, hix, hch⟩
    · exact ih x hin
    · exact ⟨j, p, hj, by omega, hix, hch⟩

/-- With merging, the pool and created list stay equal in size, reaching the
largest pass's attachment count after the first step. -/
theorem flow_merge_len (m : Maps) :
    ∀ (steps : Nat),
      (flowState true m steps).1.length = (flowState true m steps).2.length
      ∧ (flowState true m steps).1.length
          = (if steps = 0 then 0 else maxL (m.passes.map List.length)) := by
  intro steps
  induction steps with
  | zero => constructor <;> simp [flowState]
  | succ k ih =>
    rw [flowState_succ]
    unfold stepPassesF
    have hmc : mergeChannelsOf true m.values m.textures m.passes m.channelsMin
        = some (mergeChVal m) := rfl
    rw [hmc]
    have h := stepPasses_merge_len m.values m.textures m.channelsMin
      (mergeChVal m) k m.passes (flowState true m k).1 (flowState true m k).2
      0 ih.1
    refine ⟨h.2.symm ▸ h.1 ▸ rfl, ?_⟩
    rw [h.1, ih.2]
    by_cases hk : k = 0
    · simp [hk]
    · rw [if_neg hk, if_neg (by omega)]
      omega

/-- C2 counterexample: with merging (the default) and `channelsMin = 1`, the
one-channel value's created texture is allocated `4` channels — the pool-wide
maximum — not the claimed per-texture minimum `max(width, channelsMin) = 1`. -/
theorem texture_channels_minimal_claim_false :
    ¬ ∀ x ∈ flowTextures true mapsTwoTex 1,
        x.channels
          = max (texWidth mapsTwoTex.values mapsTwoTex.textures x.index)
              mapsTwoTex.channelsMin := by
  decide

/-- C2 amended: every created texture's channel count is `channelsMin` floored
under the maximum packed width of its attachment group — its own pass when
unmerged, all passes when merged — hence at least `channelsMin` and at least
its own packed width, but not the per-texture minimum the claim states. -/
theorem texture_channels_floor_and_group_max (merge : Bool) (m : Maps)
    (steps : Nat) :
    ∀ x ∈ flowTextures merge m steps,
      m.channelsMin ≤ x.channels
      ∧ texWidth m.values m.textures x.index ≤ x.channels
      ∧ x.channels = (if merge then mergeChVal m
          else passChannels m.values m.textures (m.passes.getD x.pass [])
            m.channelsMin) := by
  intro x hx
  obtain ⟨j, p, hj, hp, hix, hch⟩ := flow_entries merge m steps x hx
  have hmem : p ∈ m.passes := List.get?_mem hj
  have hgd : m.passes.getD j [] = p := getD_of_get? [] m.passes j p hj
  cases merge with
  | false =>
    have hch2 : x.channels
        = passChannels m.values m.textures p m.channelsMin := by
      rw [hch]; rfl
    refine ⟨?_, ?_, ?_⟩
    · rw [hch2]; exact passChannels_ge_init m.values m.textures p _
    · rw [hch2]; exact passChannels_ge_mem m.values m.textures p _ x.index hix
    · rw [hch2]
      show passChannels m.values m.textures p m.channelsMin
          = passChannels m.values m.textures (m.passes.getD x.pass [])
            m.channelsMin
      rw [hp, hgd]
  | true =>
    have hch2 : x.channels = mergeChVal m := by rw [hch]; rfl
    refine ⟨?_, ?_, ?_⟩
    · rw [hch2]
      unfold mergeChVal
      exact mergeFold_ge_init m.values m.textures m.passes m.channelsMin
    · rw [hch2]
      calc texWidth m.values m.textures x.index
          ≤ passChannels m.values m.textures p m.channelsMin :=
            passChannels_ge_mem m.values m.textures p _ x.index hix
        _ ≤ mergeChVal m := by
            unfold mergeChVal
            exact mergeFold_ge_mem m.values m.textures m.passes
              m.channelsMin p hmem
    · rw [hch2]
      rfl

/-- Witness for the amended C2 at the two-texture maps: the one-channel
texture's width is covered by its allocated channels. -/
theorem texture_channels_floor_witness :
    texWidth mapsTwoTex.values mapsTwoTex.textures
        (FlowTex.mk 4 0 0 0).index ≤ (FlowTex.mk 4 0 0 0).channels :=
  (texture_channels_floor_and_group_max true mapsTwoTex 1
    (FlowTex.mk 4 0 0 0) (by decide)).2.1

/-- C10: with merging (the default), state setup creates one shared pool of
texture attachments — as many textures as the largest pass's attachment
count, not the sum over all passes and steps — and every created attachment
has the same channel count: the maximum packed width over all passes, floored
at `channelsMin`. -/
theorem merged_pool_texture_count_and_channels (m : Maps) (steps : Nat)
    (h : 1 ≤ steps) :
    (flowTextures true m steps).length = maxL (m.passes.map List.length)
    ∧ (∀ x ∈ flowTextures true m steps, x.channels = mergeChVal m)
    ∧ mergeChVal m = max m.channelsMin
        (maxL (m.passes.flatten.map (texWidth m.values m.textures))) := by
  refine ⟨?_, ?_, mergeChVal_flat m⟩
  · have hl := flow_merge_len m steps
    unfold flowTextures
    rw [← hl.1, hl.2, if_neg (by omega)]
  · intro x hx
    obtain ⟨j, p, hj, hp, hix, hch⟩ := flow_entries true m steps x hx
    rw [hch]
    rfl

/-- Witness for C10 at the two-texture maps over one step. -/
theorem merged_pool_witness :
    (flowTextures true mapsTwoTex 1).length
      = maxL (mapsTwoTex.passes.map List.length) :=
  (merged_pool_texture_count_and_channels mapsTwoTex 1 (by decide)).1
